import Mathlib

/-!
# Verification of the `maim_message` WebSocket transport layer

Shallow embedding of the routing/registry/reconnect logic of the
`maim_message` repository (files `server_ws_api.py`, `client_ws_api.py`,
`client_ws_connection.py`, `ws_config.py`) together with proofs of the
specified properties.

Python dictionaries are modelled as insertion-ordered association lists
(`Dict α`), Python sets of strings as duplicate-free `List String`,
Python `float` reconnect delays as `ℚ` (the operations used by the code,
doubling and `min`, are exact on floats, so `ℚ` simulates them faithfully).
-/

namespace MaimMessage

/-- Python `dict` with `String` keys: insertion-ordered association list. -/
abbrev Dict (α : Type) := List (String × α)

/-- `d.get(k)` / `d[k]` lookup: value at the first occurrence of key `k`. -/
def dget {α : Type} : Dict α → String → Option α
  | [], _ => none
  | (k, v) :: tl, key => if k = key then some v else dget tl key

/-- `d[k] = v`: replace the value at an existing key in place (Python dicts
keep the key's insertion position), else append the new binding. -/
def dset {α : Type} : Dict α → String → α → Dict α
  | [], key, v => [(key, v)]
  | (k, w) :: tl, key, v =>
      if k = key then (key, v) :: tl else (k, w) :: dset tl key v

/-- `del d[k]`: remove the binding of key `k` (first occurrence). -/
def ddel {α : Type} : Dict α → String → Dict α
  | [], _ => []
  | (k, w) :: tl, key => if k = key then tl else (k, w) :: ddel tl key

/-- `k in d` membership test. -/
def dmem {α : Type} (d : Dict α) (key : String) : Bool :=
  (dget d key).isSome

/-- The keys of a dictionary hold no duplicates.  Python dictionaries have
this by construction; all operations above preserve it. -/
def DNodup {α : Type} (d : Dict α) : Prop :=
  (d.map Prod.fst).Nodup

/-- Python `set.add`: append the element unless already present (membership
semantics only; we fix an order to stay executable). -/
def sadd (s : List String) (x : String) : List String :=
  if x ∈ s then s else s ++ [x]

/-- Python `set.discard`: remove the element if present. -/
def sdiscard (s : List String) (x : String) : List String :=
  s.filter (fun y => y ≠ x)

/-- Lookup of a set-valued dictionary entry, defaulting to the empty set. -/
def dget1 (d : Dict (List String)) (k : String) : List String :=
  (dget d k).getD []

/-- Lookup in a two-level dictionary `user ↦ platform ↦ set`, defaulting to
the empty set at every missing level. -/
def dget2 (d : Dict (Dict (List String))) (k1 k2 : String) : List String :=
  dget1 ((dget d k1).getD []) k2

/-!
## Server connection registry (`server_ws_api.py`)

The business-layer state of `WebSocketServer`: the three-level mapping
`user_connections : user ↦ platform ↦ set of connection uuids`, the
platform index `platform_connections`, and the reverse maps
`connection_users` / `connection_metadata`.
-/

/-- The identity triple carried by a server-side `NetworkEvent`'s
`ConnectionMetadata` (`x-uuid` / `x-apikey` / `x-platform` extracted from the
handshake by the server network driver); the registry handlers only ever read
the `uuid`, `api_key` and `platform` entries of `metadata.to_dict()`. -/
structure ConnMeta where
  uuid : String
  api_key : String
  platform : String
  deriving Repr, DecidableEq

/-- The four registry tables of `WebSocketServer`. -/
structure ServerState where
  user_connections : Dict (Dict (List String))
  platform_connections : Dict (List String)
  connection_users : Dict String
  connection_metadata : Dict ConnMeta
  deriving Repr, DecidableEq

/-- The freshly constructed server (`WebSocketServer.__init__`): all four
tables empty. -/
def emptyServerState : ServerState :=
  { user_connections := []
    platform_connections := []
    connection_users := []
    connection_metadata := [] }

/-- A dispatcher event relevant to the registry.  `connect` carries the
outcome of `_authenticate_connection` (`some user_id` when both `on_auth`
and `on_auth_extract_user` succeed, `none` otherwise — the callbacks are
external collaborators, so their outcome is data of the event).
`disconnect` carries the event's `ConnectionMetadata`. -/
inductive SEvent where
  | connect (meta : ConnMeta) (auth : Option String)
  | disconnect (meta : ConnMeta)
  deriving Repr, DecidableEq

/-- `WebSocketServer._handle_connect_event`: on failed authentication the
client is disconnected and no registry entry is created; on success the
connection is inserted into all four tables. -/
def handleConnectEvent (s : ServerState) (meta : ConnMeta)
    (auth : Option String) : ServerState :=
  match auth with
  | none => s
  | some user_id =>
      let connection_uuid := meta.uuid
      let platform := meta.platform
      -- if user_id not in self.user_connections: self.user_connections[user_id] = {}
      let uc := if dmem s.user_connections user_id then s.user_connections
                else dset s.user_connections user_id []
      -- if platform not in self.user_connections[user_id]: ... = set()
      let inner := (dget uc user_id).getD []
      let inner := if dmem inner platform then inner else dset inner platform []
      -- self.user_connections[user_id][platform].add(connection_uuid)
      let inner := dset inner platform
        (sadd ((dget inner platform).getD []) connection_uuid)
      let uc := dset uc user_id inner
      -- if platform not in self.platform_connections: ... = set(); ... .add(...)
      let pc := dset s.platform_connections platform
        (sadd (dget1 s.platform_connections platform) connection_uuid)
      -- self.connection_users[connection_uuid] = user_id
      -- self.connection_metadata[connection_uuid] = metadata
      { user_connections := uc
        platform_connections := pc
        connection_users := dset s.connection_users connection_uuid user_id
        connection_metadata := dset s.connection_metadata connection_uuid meta }

/-- `WebSocketServer._handle_disconnect_event`: a no-op on the tables when the
uuid is unregistered; otherwise the connection is removed from the user map
(using the platform recorded in `connection_metadata`, falling back to the
event's platform), from the platform index (using the event's platform), and
from both reverse maps, pruning now-empty entries. -/
def handleDisconnectEvent (s : ServerState) (meta : ConnMeta) : ServerState :=
  let connection_uuid := meta.uuid
  match dget s.connection_users connection_uuid with
  | none => s
  | some user_id =>
      -- if user_id in self.user_connections:
      let uc :=
        if dmem s.user_connections user_id then
          -- platform = metadata.get("platform", event.metadata.platform)
          let platform :=
            match dget s.connection_metadata connection_uuid with
            | some m => m.platform
            | none => meta.platform
          let inner := (dget s.user_connections user_id).getD []
          -- if platform in self.user_connections[user_id]: discard, prune
          let inner :=
            if dmem inner platform then
              let ps := sdiscard ((dget inner platform).getD []) connection_uuid
              if ps.isEmpty then ddel inner platform else dset inner platform ps
            else inner
          -- if not self.user_connections[user_id]: del self.user_connections[user_id]
          if inner.isEmpty then ddel s.user_connections user_id
          else dset s.user_connections user_id inner
        else s.user_connections
      -- if event.metadata.platform in self.platform_connections: discard, prune
      let pc :=
        if dmem s.platform_connections meta.platform then
          let ps := sdiscard (dget1 s.platform_connections meta.platform)
            connection_uuid
          if ps.isEmpty then ddel s.platform_connections meta.platform
          else dset s.platform_connections meta.platform ps
        else s.platform_connections
      -- del self.connection_users[connection_uuid]
      -- if connection_uuid in self.connection_metadata: del ...
      { user_connections := uc
        platform_connections := pc
        connection_users := ddel s.connection_users connection_uuid
        connection_metadata := ddel s.connection_metadata connection_uuid }

/-- One step of `WebSocketServer._dispatcher_loop` restricted to the two
registry-mutating event kinds. -/
def stepEvent (s : ServerState) : SEvent → ServerState
  | .connect meta auth => handleConnectEvent s meta auth
  | .disconnect meta => handleDisconnectEvent s meta

/-- Dispatch a whole sequence of events. -/
def processEvents (s : ServerState) : List SEvent → ServerState
  | [] => s
  | e :: es => processEvents (stepEvent s e) es

/-- Driver-level guarantee about a single event, relative to the current
registry: a `Connect` event carries the uuid of a freshly accepted socket
(so the uuid is not currently registered), and a `Disconnect` event carries
the same `ConnectionMetadata` the driver stored when the socket connected
(so its platform agrees with the one recorded at registration). -/
def wfEvent (s : ServerState) : SEvent → Bool
  | .connect meta _ => !(dmem s.connection_users meta.uuid)
  | .disconnect meta =>
      match dget s.connection_metadata meta.uuid with
      | some m => m.platform == meta.platform
      | none => true

/-- A whole event sequence satisfies the driver-level guarantees when
dispatched from state `s`. -/
def wfTrace (s : ServerState) : List SEvent → Bool
  | [] => true
  | e :: es => wfEvent s e && wfTrace (stepEvent s e) es

/-- The registry invariant exactly as the specification states it
(spec §3 "Registry"): `connection_users[uuid] = u` iff `u` is a key of
`user_connections` and `uuid ∈ user_connections[u][p]` for the platform `p`
recorded in `connection_metadata[uuid]`; `platform_connections[p]` is the
union over all users of the registered connections on platform `p`; and
now-empty user and platform entries are pruned. -/
def registryInvariant (s : ServerState) : Prop :=
  (∀ c u, dget s.connection_users c = some u ↔
      (dmem s.user_connections u = true ∧
        ∃ m, dget s.connection_metadata c = some m ∧
          c ∈ dget2 s.user_connections u m.platform)) ∧
  (∀ p c, c ∈ dget1 s.platform_connections p ↔
      ∃ u, c ∈ dget2 s.user_connections u p) ∧
  (∀ u inner, dget s.user_connections u = some inner →
      inner ≠ [] ∧ ∀ p st, dget inner p = some st → st ≠ []) ∧
  (∀ p st, dget s.platform_connections p = some st → st ≠ [])

/-- The inductive strengthening of `registryInvariant` actually preserved by
the two handlers: duplicate-free keys, equal domains of the two reverse maps,
soundness and completeness of the forward tables with respect to the reverse
maps, and pruning. -/
structure RegInv (s : ServerState) : Prop where
  ndUC : DNodup s.user_connections
  ndPC : DNodup s.platform_connections
  ndCU : DNodup s.connection_users
  ndCM : DNodup s.connection_metadata
  ndInner : ∀ u inner, dget s.user_connections u = some inner → DNodup inner
  domEq : ∀ c, (dget s.connection_users c).isSome =
      (dget s.connection_metadata c).isSome
  fwd : ∀ c u, dget s.connection_users c = some u →
      ∃ m, dget s.connection_metadata c = some m ∧
        c ∈ dget2 s.user_connections u m.platform
  back : ∀ u p c, c ∈ dget2 s.user_connections u p →
      dget s.connection_users c = some u ∧
        ∃ m, dget s.connection_metadata c = some m ∧ m.platform = p
  plat : ∀ p c, c ∈ dget1 s.platform_connections p ↔
      ∃ m, dget s.connection_metadata c = some m ∧ m.platform = p
  pruneU : ∀ u inner, dget s.user_connections u = some inner →
      inner ≠ [] ∧ ∀ p st, dget inner p = some st → st ≠ []
  pruneP : ∀ p st, dget s.platform_connections p = some st → st ≠ []

/-- Proof alias: `user_connections` after the `if user_id not in ...` default
insertion in `_handle_connect_event`. -/
def connectExtendUC (s : ServerState) (u₀ : String) : Dict (Dict (List String)) :=
  if dmem s.user_connections u₀ = true then s.user_connections
  else dset s.user_connections u₀ []

/-- Proof alias: the target user's platform map read back after the default
insertion. -/
def connectInner0 (s : ServerState) (u₀ : String) : Dict (List String) :=
  (dget (connectExtendUC s u₀) u₀).getD []

/-- Proof alias: the platform map after the `if platform not in ...` default
insertion. -/
def connectInnerExt (s : ServerState) (u₀ p₀ : String) : Dict (List String) :=
  if dmem (connectInner0 s u₀) p₀ = true then connectInner0 s u₀
  else dset (connectInner0 s u₀) p₀ []

/-- Proof alias: the platform map after `.add(connection_uuid)`. -/
def connectInnerF (s : ServerState) (u₀ p₀ c₀ : String) :
    Dict (List String) :=
  dset (connectInnerExt s u₀ p₀) p₀
    (sadd ((dget (connectInnerExt s u₀ p₀) p₀).getD []) c₀)

/-- Python truthiness of an `Optional[str]` (`None` and `""` are falsy). -/
def pyTruthy : Option String → Bool
  | none => false
  | some s => !s.isEmpty

/-- `WebSocketServer.send_message` (routing part).  `extracted` is the outcome
of the `on_auth_extract_user` callback on the message's api_key (`none`
models the callback raising, which the code turns into an empty result);
`platform` is `message.get_platform()`; the network driver's per-connection
send outcome is the parameter `sendOk`.  Returns the `results` map as an
association list in iteration order. -/
def WebSocketServer.send_message (s : ServerState) (extracted : Option String)
    (platform : String) (sendOk : String → Bool) : List (String × Bool) :=
  match extracted with
  | none => []
  | some target_user =>
      -- if target_user not in self.user_connections: return results
      match dget s.user_connections target_user with
      | none => []
      | some user_platform_connections =>
          -- if platform not in user_platform_connections: return results
          match dget user_platform_connections platform with
          | none => []
          | some target_connections =>
              target_connections.map (fun c => (c, sendOk c))

/-- `WebSocketServer.send_custom_message` target resolution, translated with
Python semantics preserved: `self.user_connections.get(target_user, set())`
yields the user's *platform dictionary* (not a set of connections!), so with
`target_platform` given the expression `user_connections & platform_connections`
raises `TypeError` (dict has no `&` with a set), and without it the `for` loop
iterates over the dictionary's *keys*, i.e. over platform names. -/
def WebSocketServer.send_custom_message (s : ServerState)
    (target_user target_platform connection_uuid : Option String)
    (sendOk : String → Bool) : Except String (List (String × Bool)) :=
  if pyTruthy connection_uuid then
    -- target_connections.add(connection_uuid)
    Except.ok [(connection_uuid.getD "", sendOk (connection_uuid.getD ""))]
  else if pyTruthy target_user then
    match dget s.user_connections (target_user.getD "") with
    | some user_conns_dict =>
        if pyTruthy target_platform then
          -- user_connections & platform_connections : dict & set
          Except.error "TypeError: unsupported operand for &: dict and set"
        else
          -- for conn_uuid in target_connections: iterates the dict keys
          Except.ok ((user_conns_dict.map Prod.fst).map
            (fun conn => (conn, sendOk conn)))
    | none =>
        -- .get default: set(); set() & anything = set(); loop over empty
        Except.ok []
  else
    Except.ok []

/-- `WebSocketServer.stop` state cleanup: the code clears
`user_connections`, `platform_connections` and `connection_users` but does
not touch `connection_metadata`. -/
def WebSocketServer.stop (s : ServerState) : ServerState :=
  { user_connections := []
    platform_connections := []
    connection_users := []
    connection_metadata := s.connection_metadata }

/-- `WebSocketServer.get_connection_count`: `len(self.connection_users)`. -/
def WebSocketServer.get_connection_count (s : ServerState) : Nat :=
  s.connection_users.length

/-!
## Client reconnect loop (`client_ws_connection.py`, `_connection_loop`)

Delays are Python floats; the loop only doubles them and takes `min`, both
exact on floats, so `ℚ` simulates the arithmetic faithfully.
-/

/-- The reconnect-policy fields of `ConnectionConfig`. -/
structure ReconnectConfig where
  max_reconnect_attempts : Nat
  reconnect_delay : ℚ
  max_reconnect_delay : ℚ
  deriving Repr, DecidableEq

/-- The loop-local reconnect bookkeeping of `_connection_loop`:
`reconnect_attempts` and `reconnect_delay`. -/
structure RcState where
  reconnect_attempts : Nat
  delay : ℚ
  deriving Repr, DecidableEq

/-- Loop entry: `reconnect_delay = config.reconnect_delay`,
`reconnect_attempts = 0`. -/
def initRc (cfg : ReconnectConfig) : RcState :=
  { reconnect_attempts := 0, delay := cfg.reconnect_delay }

/-- Effect of one connect attempt on the bookkeeping: on a successful
handshake the loop resets `reconnect_attempts = 0` and
`reconnect_delay = config.reconnect_delay`; a failed attempt leaves both
unchanged. -/
def afterAttempt (cfg : ReconnectConfig) (st : RcState) (success : Bool) :
    RcState :=
  if success then { reconnect_attempts := 0, delay := cfg.reconnect_delay }
  else st

/-- The reconnect tail of `_connection_loop`, assuming the driver stays
running, the connection stays in the table and no shutdown signal is set
(each element of `outcomes` is one connect attempt: `true` = handshake
succeeded and the connection later dropped, `false` = attempt failed).

Per iteration: `should_reconnect` iff `reconnect_attempts <
max_reconnect_attempts`; if so the loop increments the counter, waits
`asyncio.wait_for(asyncio.sleep(reconnect_delay), timeout=30.0)` — i.e.
`min reconnect_delay 30` seconds, the `TimeoutError` being swallowed — and
then sets `reconnect_delay = min(max_reconnect_delay, reconnect_delay * 2)`;
otherwise it sets the connection state to `"error"` and breaks.

Returns the list of waited delays and `some "error"` when the loop exited
through the error branch (`none` when the supplied outcomes ran out with the
loop still alive). -/
def connectionLoop (cfg : ReconnectConfig) :
    RcState → List Bool → List ℚ × Option String
  | _, [] => ([], none)
  | st, o :: rest =>
      let st1 := afterAttempt cfg st o
      if st1.reconnect_attempts < cfg.max_reconnect_attempts then
        let waited := min st1.delay 30
        let next := connectionLoop cfg
          { reconnect_attempts := st1.reconnect_attempts + 1
            delay := min cfg.max_reconnect_delay (st1.delay * 2) } rest
        (waited :: next.1, next.2)
      else ([], some "error")

/-- The delay sequence exactly as the specification words it:
`d[0] = d0`, `d[i+1] = min(dmax, 2*d[i])`. -/
def specDelay (cfg : ReconnectConfig) : Nat → ℚ
  | 0 => cfg.reconnect_delay
  | i + 1 => min cfg.max_reconnect_delay (specDelay cfg i * 2)

/-!
## Client connection table and routing (`client_ws_connection.py`,
`client_ws_api.py`)
-/

/-- The identity/transport fields of the client `ConnectionConfig` used by
routing and by `get_headers` (after `__post_init__`: `connection_uuid`
generated when absent, `headers` defaulted to `{}`). -/
structure ConnectionConfig where
  url : String
  api_key : String
  platform : String
  connection_uuid : String
  headers : Dict String
  deriving Repr, DecidableEq

/-- `ConnectionConfig.get_headers`: copies the stored headers dict, then
`update`s the copy with the identity triple (so the config's values
overwrite same-named user entries), returning the copy; the stored
`ConnectionConfig` (second component) is untouched. -/
def ConnectionConfig.get_headers (cfg : ConnectionConfig) :
    Dict String × ConnectionConfig :=
  let headers := cfg.headers
  let headers := dset (dset (dset headers "x-uuid" cfg.connection_uuid)
    "x-apikey" cfg.api_key) "x-platform" cfg.platform
  (headers, cfg)

/-- First pass of `WebSocketClient._find_connection_for_target`: matching
api_key AND platform AND state `"connected"`, in table iteration order. -/
def findLoopFull (states : Dict String) (akey plat : String) :
    Dict ConnectionConfig → Option String
  | [] => none
  | (u, cfg) :: tl =>
      if cfg.api_key = akey ∧ cfg.platform = plat ∧
          dget states u = some "connected"
      then some u else findLoopFull states akey plat tl

/-- Second pass: matching api_key with state `"connected"`. -/
def findLoopApiKey (states : Dict String) (akey : String) :
    Dict ConnectionConfig → Option String
  | [] => none
  | (u, cfg) :: tl =>
      if cfg.api_key = akey ∧ dget states u = some "connected"
      then some u else findLoopApiKey states akey tl

/-- Third pass: matching platform with state `"connected"`. -/
def findLoopPlatform (states : Dict String) (plat : String) :
    Dict ConnectionConfig → Option String
  | [] => none
  | (u, cfg) :: tl =>
      if cfg.platform = plat ∧ dget states u = some "connected"
      then some u else findLoopPlatform states plat tl

/-- `WebSocketClient._find_connection_for_target`: the three passes in
order, each returning at its first match. -/
def WebSocketClient.find_connection_for_target
    (connections : Dict ConnectionConfig) (connection_states : Dict String)
    (target_api_key target_platform : String) : Option String :=
  match findLoopFull connection_states target_api_key target_platform
      connections with
  | some u => some u
  | none =>
      match findLoopApiKey connection_states target_api_key connections with
      | some u => some u
      | none =>
          findLoopPlatform connection_states target_platform connections

/-- The same search written from the specification words (spec §4.6): three
passes over the table, each taking the first entry satisfying its tier,
tiers tried most to least specific. -/
def findTargetSpec (connections : Dict ConnectionConfig)
    (connection_states : Dict String)
    (target_api_key target_platform : String) : Option String :=
  let connected := fun (u : String) =>
    dget connection_states u = some "connected"
  let tier1 := connections.find? (fun pr =>
    pr.2.api_key = target_api_key ∧ pr.2.platform = target_platform ∧
      connected pr.1)
  let tier2 := connections.find? (fun pr =>
    pr.2.api_key = target_api_key ∧ connected pr.1)
  let tier3 := connections.find? (fun pr =>
    pr.2.platform = target_platform ∧ connected pr.1)
  ((tier1 <|> tier2) <|> tier3).map Prod.fst

/-!
## Client frame handling (`client_ws_connection.py`, `_handle_message`,
`_send_ack`, `_send_event`)
-/

/-- A JSON-ish value as manipulated by the driver. -/
inductive PyVal where
  | str (s : String)
  | num (q : ℚ)
  | dict (entries : List (String × PyVal))

/-- Python truthiness of a JSON value. -/
def pyTruthyVal : PyVal → Bool
  | .str s => !s.isEmpty
  | .num q => !(q == 0)
  | .dict d => !d.isEmpty

/-- Truthiness of `d.get(k)` (missing key yields `None`, which is falsy). -/
def pyGetTruthy : Option PyVal → Bool
  | none => false
  | some v => pyTruthyVal v

/-- Python `data.get("type") != "sys_ack"` style comparison: `None` and
non-string values compare unequal to any string. -/
def pyNeStr : Option PyVal → String → Bool
  | some (.str t), s => !(t == s)
  | _, _ => true

/-- An inbound WebSocket frame as received by `_handle_message`: a text
frame, an already-parsed dict, or any other object. -/
inductive WSFrame where
  | text (s : String)
  | obj (d : Dict PyVal)
  | other (repr : String)

/-- The `data` value computed by `_handle_message`: text frames go through
`json.loads` (modelled by the parameter `jsonLoads`, an external library
call), a parse failure wraps the raw text as `{"raw_message": message}`,
dicts pass through and anything else is wrapped as `{"data": str(message)}`. -/
def parsedData (jsonLoads : String → Option (Dict PyVal)) :
    WSFrame → Dict PyVal
  | .text s =>
      match jsonLoads s with
      | some d => d
      | none => [("raw_message", PyVal.str s)]
  | .obj d => d
  | .other r => [("data", PyVal.str r)]

/-- The ACK envelope built by `_send_ack` (`genId` models `uuid.uuid4()`,
`now` models `time.time()`). -/
def ackMessage (genId connection_uuid : String) (msg_id : PyVal) (now : ℚ) :
    Dict PyVal :=
  [("ver", PyVal.num 1),
   ("msg_id", PyVal.str genId),
   ("type", PyVal.str "sys_ack"),
   ("meta", PyVal.dict
     [("uuid", PyVal.str connection_uuid),
      ("acked_msg_id", msg_id),
      ("timestamp", PyVal.num now)]),
   ("payload", PyVal.dict
     [("status", PyVal.str "received"),
      ("client_timestamp", PyVal.num now)])]

/-- Client-side event kinds (`EventType`). -/
inductive CEventType where
  | connect
  | disconnect
  | message
  deriving Repr, DecidableEq

/-- Client-side `NetworkEvent` as put on the business queue by
`_send_event` (the fields the queue consumer reads). -/
structure CNetworkEvent where
  event_type : CEventType
  connection_uuid : String
  payload : Option (Dict PyVal)

/-- `ClientNetworkDriver._handle_message` for one received frame:
parse (with raw-wrap fallback), send an ACK iff the data carries a truthy
`msg_id` and its `type` is not `"sys_ack"`, then emit a `MESSAGE` event to
the queue via `_send_event` (which drops the event when the uuid has no
config entry).  Returns the new queue and the list of ACK envelopes passed
to `_send_raw_message`; the ACK send outcome is fire-and-forget
(`_send_ack` catches every exception and the result is ignored), so it does
not appear in the state. -/
def handle_message (jsonLoads : String → Option (Dict PyVal))
    (genId : String) (now : ℚ) (connections : List String)
    (queue : List CNetworkEvent) (connection_uuid : String)
    (frame : WSFrame) : List CNetworkEvent × List (Dict PyVal) :=
  let data := parsedData jsonLoads frame
  let msg_id := dget data "msg_id"
  let acks :=
    if pyGetTruthy msg_id && pyNeStr (dget data "type") "sys_ack" then
      [ackMessage genId connection_uuid (msg_id.getD (PyVal.str "")) now]
    else []
  let queue2 :=
    if connection_uuid ∈ connections then
      queue ++ [{ event_type := CEventType.message
                  connection_uuid := connection_uuid
                  payload := some data }]
    else queue
  (queue2, acks)

/-- A small populated registry used for concrete evaluations: one user
`"u1"` with one connection `"c1"` on platform `"qq"`. -/
def exampleRegistry : ServerState :=
  { user_connections := [("u1", [("qq", ["c1"])])]
    platform_connections := [("qq", ["c1"])]
    connection_users := [("c1", "u1")]
    connection_metadata := [("c1", ⟨"c1", "k1", "qq"⟩)] }

/-- The source defaults: `max_reconnect_attempts = 5`,
`reconnect_delay = 1.0`, `max_reconnect_delay = 30.0`. -/
def defaultReconnectConfig : ReconnectConfig :=
  { max_reconnect_attempts := 5, reconnect_delay := 1, max_reconnect_delay := 30 }

/-- A reconnect policy whose initial delay exceeds the 30-second timeout the
code wraps around the reconnect sleep. -/
def cfg40 : ReconnectConfig :=
  { max_reconnect_attempts := 5, reconnect_delay := 40, max_reconnect_delay := 100 }

/-- A concrete stand-in for `json.loads`: parses the text `"good"` into an
envelope carrying a `msg_id`, fails on everything else. -/
def jsonLoadsExample : String → Option (Dict PyVal) := fun s =>
  if s = "good" then
    some [("msg_id", PyVal.str "m1"), ("type", PyVal.str "sys_std")]
  else none

/-- A connection config whose user-supplied headers collide with the
identity headers. -/
def exampleConnCfg : ConnectionConfig :=
  { url := "ws://localhost:18000/ws"
    api_key := "k1"
    platform := "qq"
    connection_uuid := "c1"
    headers := [("x-apikey", "evil"), ("custom", "v")] }

/-- A two-entry client connection table: two identities over two sockets. -/
def exampleClientConns : Dict ConnectionConfig :=
  [("ca", { url := "ws://a", api_key := "k1", platform := "qq"
            connection_uuid := "ca", headers := [] }),
   ("cb", { url := "ws://b", api_key := "k2", platform := "wechat"
            connection_uuid := "cb", headers := [] })]

/-- States for the example client table: both connected. -/
def exampleClientStates : Dict String :=
  [("ca", "connected"), ("cb", "connected")]

theorem dget_cons_self {α : Type} (tl : Dict α) (k : String) (v : α) :
    dget ((k, v) :: tl) k = some v := by
  simp [dget]

theorem dget_cons_ne {α : Type} (tl : Dict α) (k₀ k : String) (v : α)
    (h : k₀ ≠ k) : dget ((k₀, v) :: tl) k = dget tl k := by
  simp [dget, h]

theorem dset_cons_self {α : Type} (tl : Dict α) (k : String) (w v : α) :
    dset ((k, w) :: tl) k v = (k, v) :: tl := by
  simp [dset]

theorem dset_cons_ne {α : Type} (tl : Dict α) (k₀ k : String) (w : α) (v : α)
    (h : k₀ ≠ k) : dset ((k₀, w) :: tl) k v = (k₀, w) :: dset tl k v := by
  simp [dset, h]

theorem ddel_cons_self {α : Type} (tl : Dict α) (k : String) (w : α) :
    ddel ((k, w) :: tl) k = tl := by
  simp [ddel]

theorem ddel_cons_ne {α : Type} (tl : Dict α) (k₀ k : String) (w : α)
    (h : k₀ ≠ k) : ddel ((k₀, w) :: tl) k = (k₀, w) :: ddel tl k := by
  simp [ddel, h]

theorem dget_dset_self {α : Type} (d : Dict α) (k : String) (v : α) :
    dget (dset d k v) k = some v := by
  induction d with
  | nil => simp [dset, dget]
  | cons hd tl ih =>
    obtain ⟨k', v'⟩ := hd
    by_cases h : k' = k
    · simp [dset, h, dget]
    · simp [dset, h, dget, ih]

theorem dget_dset_ne {α : Type} (d : Dict α) (k k' : String) (v : α)
    (h : k ≠ k') : dget (dset d k v) k' = dget d k' := by
  induction d with
  | nil => simp [dset, dget, h]
  | cons hd tl ih =>
    obtain ⟨k₀, v₀⟩ := hd
    by_cases h₀ : k₀ = k
    · subst h₀; simp [dset, dget, h]
    · simp [dset, h₀, dget, ih]

theorem dget_eq_none_of_not_mem_keys {α : Type} (d : Dict α) (k : String)
    (h : k ∉ d.map Prod.fst) : dget d k = none := by
  induction d with
  | nil => simp [dget]
  | cons hd tl ih =>
    obtain ⟨k₀, v₀⟩ := hd
    simp only [List.map_cons, List.mem_cons, not_or] at h
    simp only [dget, if_neg (fun hh : k₀ = k => h.1 hh.symm)]
    exact ih h.2

theorem mem_dset {α : Type} (d : Dict α) (k : String) (v : α)
    (p : String × α) (h : p ∈ dset d k v) : p = (k, v) ∨ p ∈ d := by
  revert h
  induction d with
  | nil =>
    intro h
    simp only [dset, List.mem_singleton] at h
    exact Or.inl h
  | cons hd tl ih =>
    intro h
    obtain ⟨k₀, v₀⟩ := hd
    by_cases h₀ : k₀ = k
    · subst h₀
      rw [dset_cons_self, List.mem_cons] at h
      rcases h with h | h
      · exact Or.inl h
      · exact Or.inr (List.mem_cons_of_mem _ h)
    · rw [dset_cons_ne tl k₀ k v₀ v h₀, List.mem_cons] at h
      rcases h with h | h
      · exact Or.inr (List.mem_cons.mpr (Or.inl h))
      · rcases ih h with h' | h'
        · exact Or.inl h'
        · exact Or.inr (List.mem_cons_of_mem _ h')

theorem mem_ddel {α : Type} (d : Dict α) (k : String)
    (p : String × α) (h : p ∈ ddel d k) : p ∈ d := by
  revert h
  induction d with
  | nil =>
    intro h
    simpa [ddel] using h
  | cons hd tl ih =>
    intro h
    obtain ⟨k₀, v₀⟩ := hd
    by_cases h₀ : k₀ = k
    · subst h₀
      rw [ddel_cons_self] at h
      exact List.mem_cons_of_mem _ h
    · rw [ddel_cons_ne tl k₀ k v₀ h₀, List.mem_cons] at h
      rcases h with h | h
      · exact List.mem_cons.mpr (Or.inl h)
      · exact List.mem_cons_of_mem _ (ih h)

theorem mem_keys_dset {α : Type} (d : Dict α) (k k' : String) (v : α)
    (h : k' ∈ (dset d k v).map Prod.fst) : k' = k ∨ k' ∈ d.map Prod.fst := by
  rcases List.mem_map.mp h with ⟨p, hp, hk⟩
  rcases mem_dset d k v p hp with h' | h'
  · exact Or.inl (by rw [← hk, h'])
  · exact Or.inr (hk ▸ List.mem_map_of_mem Prod.fst h')

theorem mem_keys_ddel {α : Type} (d : Dict α) (k k' : String)
    (h : k' ∈ (ddel d k).map Prod.fst) : k' ∈ d.map Prod.fst := by
  rcases List.mem_map.mp h with ⟨p, hp, hk⟩
  exact hk ▸ List.mem_map_of_mem Prod.fst (mem_ddel d k p hp)

theorem dget_ddel_self {α : Type} (d : Dict α) (k : String)
    (hnd : DNodup d) : dget (ddel d k) k = none := by
  induction d with
  | nil => simp [ddel, dget]
  | cons hd tl ih =>
    obtain ⟨k₀, v₀⟩ := hd
    rw [DNodup, List.map_cons, List.nodup_cons] at hnd
    by_cases h₀ : k₀ = k
    · subst h₀
      simp only [ddel, if_pos rfl]
      exact dget_eq_none_of_not_mem_keys tl k₀ hnd.1
    · simp only [ddel, if_neg h₀, dget, if_neg h₀]
      exact ih hnd.2

theorem dget_ddel_ne {α : Type} (d : Dict α) (k k' : String)
    (h : k ≠ k') : dget (ddel d k) k' = dget d k' := by
  induction d with
  | nil => simp [ddel]
  | cons hd tl ih =>
    obtain ⟨k₀, v₀⟩ := hd
    by_cases h₀ : k₀ = k
    · subst h₀; simp [ddel, dget, h]
    · simp [ddel, h₀, dget, ih]

theorem dnodup_dset {α : Type} (d : Dict α) (k : String) (v : α)
    (hnd : DNodup d) : DNodup (dset d k v) := by
  induction d with
  | nil => simp [dset, DNodup]
  | cons hd tl ih =>
    obtain ⟨k₀, v₀⟩ := hd
    rw [DNodup, List.map_cons, List.nodup_cons] at hnd
    by_cases h₀ : k₀ = k
    · subst h₀
      rw [DNodup]
      simpa [dset, List.nodup_cons] using hnd
    · rw [DNodup]
      simp only [dset, if_neg h₀, List.map_cons, List.nodup_cons]
      refine ⟨?_, ih hnd.2⟩
      intro hmem
      rcases mem_keys_dset tl k k₀ v hmem with h | h
      · exact h₀ h
      · exact hnd.1 h

theorem dnodup_ddel {α : Type} (d : Dict α) (k : String)
    (hnd : DNodup d) : DNodup (ddel d k) := by
  induction d with
  | nil => simp [ddel, DNodup]
  | cons hd tl ih =>
    obtain ⟨k₀, v₀⟩ := hd
    rw [DNodup, List.map_cons, List.nodup_cons] at hnd
    by_cases h₀ : k₀ = k
    · subst h₀; simpa [ddel, DNodup] using hnd.2
    · rw [DNodup]
      simp only [ddel, if_neg h₀, List.map_cons, List.nodup_cons]
      exact ⟨fun hmem => hnd.1 (mem_keys_ddel tl k k₀ hmem), ih hnd.2⟩

theorem mem_sadd (s : List String) (x y : String) :
    y ∈ sadd s x ↔ y ∈ s ∨ y = x := by
  by_cases h : x ∈ s
  · simp only [sadd, if_pos h]
    constructor
    · exact Or.inl
    · rintro (hy | rfl)
      · exact hy
      · exact h
  · simp [sadd, if_neg h]

theorem mem_sdiscard (s : List String) (x y : String) :
    y ∈ sdiscard s x ↔ y ∈ s ∧ y ≠ x := by
  simp [sdiscard]

theorem sdiscard_eq_nil_iff (s : List String) (x : String) :
    sdiscard s x = [] ↔ ∀ y ∈ s, y = x := by
  constructor
  · intro h y hy
    by_contra hne
    have : y ∈ sdiscard s x := (mem_sdiscard s x y).mpr ⟨hy, hne⟩
    simp [h] at this
  · intro h
    rw [List.eq_nil_iff_forall_not_mem]
    intro y hy
    rcases (mem_sdiscard s x y).mp hy with ⟨hmem, hne⟩
    exact hne (h y hmem)

theorem sadd_ne_nil (s : List String) (x : String) : sadd s x ≠ [] := by
  by_cases h : x ∈ s
  · simp only [sadd, if_pos h]
    intro hnil
    rw [hnil] at h
    simp at h
  · simp [sadd, if_neg h]

theorem dmem_true_iff {α : Type} (d : Dict α) (k : String) :
    dmem d k = true ↔ ∃ v, dget d k = some v := by
  rw [dmem, Option.isSome_iff_exists]

theorem dmem_false_iff {α : Type} (d : Dict α) (k : String) :
    dmem d k = false ↔ dget d k = none := by
  cases h : dget d k <;> simp [dmem, h]

theorem dset_ne_nil {α : Type} (d : Dict α) (k : String) (v : α) :
    dset d k v ≠ [] := by
  cases d with
  | nil => simp [dset]
  | cons hd tl =>
    obtain ⟨k₀, v₀⟩ := hd
    by_cases h₀ : k₀ = k
    · subst h₀; simp [dset_cons_self]
    · simp [dset_cons_ne tl k₀ k v₀ v h₀]

theorem ddel_eq_nil {α : Type} (d : Dict α) (k : String)
    (h : ddel d k = []) : d = [] ∨ ∃ v, d = [(k, v)] := by
  cases d with
  | nil => exact Or.inl rfl
  | cons hd tl =>
    obtain ⟨k₀, v₀⟩ := hd
    by_cases h₀ : k₀ = k
    · subst h₀
      rw [ddel_cons_self] at h
      exact Or.inr ⟨v₀, by rw [h]⟩
    · rw [ddel_cons_ne tl k₀ k v₀ h₀] at h
      simp at h

theorem dget1_dset (d : Dict (List String)) (k₀ : String) (v : List String)
    (k : String) : dget1 (dset d k₀ v) k = if k = k₀ then v else dget1 d k := by
  by_cases h : k = k₀
  · subst h; rw [dget1, dget_dset_self, Option.getD_some, if_pos rfl]
  · rw [dget1, dget_dset_ne d k₀ k v (fun hh => h hh.symm), if_neg h, dget1]

theorem dget2_dset (d : Dict (Dict (List String))) (k₀ : String)
    (inner : Dict (List String)) (u p : String) :
    dget2 (dset d k₀ inner) u p =
      if u = k₀ then dget1 inner p else dget2 d u p := by
  by_cases h : u = k₀
  · subst h; rw [dget2, dget_dset_self, Option.getD_some, if_pos rfl]
  · rw [dget2, dget_dset_ne d k₀ u inner (fun hh => h hh.symm), if_neg h, dget2]

theorem dget1_extend (d : Dict (List String)) (k₀ k : String) :
    dget1 (if dmem d k₀ = true then d else dset d k₀ []) k = dget1 d k := by
  by_cases hm : dmem d k₀ = true
  · rw [if_pos hm]
  · rw [if_neg hm, dget1_dset]
    by_cases h : k = k₀
    · subst h
      rw [if_pos rfl, dget1, (dmem_false_iff d k).mp (by simpa using hm)]
      rfl
    · rw [if_neg h]

theorem dget2_extend (d : Dict (Dict (List String))) (k₀ u p : String) :
    dget2 (if dmem d k₀ = true then d else dset d k₀ []) u p =
      dget2 d u p := by
  by_cases hm : dmem d k₀ = true
  · rw [if_pos hm]
  · rw [if_neg hm, dget2, dget2]
    by_cases h : u = k₀
    · subst h
      rw [dget_dset_self, (dmem_false_iff d u).mp (by simpa using hm)]
      rfl
    · rw [dget_dset_ne d k₀ u [] (fun hh => h hh.symm)]

theorem dget1_extend_getD (d : Dict (Dict (List String))) (k₀ p : String) :
    dget1 ((dget (if dmem d k₀ = true then d else dset d k₀ []) k₀).getD [])
      p = dget2 d k₀ p := by
  by_cases hm : dmem d k₀ = true
  · rw [if_pos hm]; rfl
  · rw [if_neg hm, dget_dset_self, Option.getD_some, dget2,
      (dmem_false_iff d k₀).mp (by simpa using hm)]
    rfl

theorem connect_cu (s : ServerState) (meta : ConnMeta) (u₀ : String) :
    (handleConnectEvent s meta (some u₀)).connection_users =
      dset s.connection_users meta.uuid u₀ := rfl

theorem connect_cm (s : ServerState) (meta : ConnMeta) (u₀ : String) :
    (handleConnectEvent s meta (some u₀)).connection_metadata =
      dset s.connection_metadata meta.uuid meta := rfl

theorem connect_pc (s : ServerState) (meta : ConnMeta) (u₀ : String) :
    (handleConnectEvent s meta (some u₀)).platform_connections =
      dset s.platform_connections meta.platform
        (sadd (dget1 s.platform_connections meta.platform) meta.uuid) := rfl

theorem getD_extend (e : Dict (List String)) (p₀ p : String) :
    (dget (if dmem e p₀ = true then e else dset e p₀ []) p).getD [] =
      dget1 e p :=
  dget1_extend e p₀ p

theorem connect_dget2 (s : ServerState) (meta : ConnMeta) (u₀ u p : String) :
    dget2 (handleConnectEvent s meta (some u₀)).user_connections u p =
      if u = u₀ ∧ p = meta.platform then
        sadd (dget2 s.user_connections u₀ meta.platform) meta.uuid
      else dget2 s.user_connections u p := by
  simp only [handleConnectEvent]
  rw [dget2_dset]
  by_cases hu : u = u₀
  · rw [if_pos hu, dget1_dset]
    by_cases hp : p = meta.platform
    · rw [if_pos hp, if_pos (And.intro hu hp)]
      rw [getD_extend, dget1_extend_getD]
    · rw [if_neg hp, if_neg (fun h : _ ∧ _ => hp h.2), hu, dget1_extend,
        dget1_extend_getD]
  · rw [if_neg hu, if_neg (fun h : _ ∧ _ => hu h.1), dget2_extend]

theorem dmem_dset {α : Type} (d : Dict α) (k : String) (v : α)
    (k' : String) : dmem (dset d k v) k' = true ↔ k' = k ∨ dmem d k' = true := by
  by_cases h : k' = k
  · subst h
    simp [dmem, dget_dset_self]
  · rw [dmem, dget_dset_ne d k k' v (fun hh => h hh.symm)]
    simp [dmem, h]

theorem dmem_ddel {α : Type} (d : Dict α) (k k' : String) (hnd : DNodup d) :
    dmem (ddel d k) k' = true ↔ dmem d k' = true ∧ k' ≠ k := by
  by_cases h : k' = k
  · subst h
    simp [dmem, dget_ddel_self d k' hnd]
  · rw [dmem, dget_ddel_ne d k k' (fun hh => h hh.symm)]
    simp [dmem, h]

theorem connect_uc_eq (s : ServerState) (meta : ConnMeta) (u₀ : String) :
    (handleConnectEvent s meta (some u₀)).user_connections =
      dset (connectExtendUC s u₀) u₀
        (connectInnerF s u₀ meta.platform meta.uuid) := rfl

theorem connect_dget_uc_ne (s : ServerState) (meta : ConnMeta)
    (u₀ u : String) (hu : u ≠ u₀) :
    dget (handleConnectEvent s meta (some u₀)).user_connections u =
      dget s.user_connections u := by
  rw [connect_uc_eq, dget_dset_ne _ _ _ _ (fun h => hu h.symm)]
  rw [connectExtendUC]
  by_cases hm : dmem s.user_connections u₀ = true
  · rw [if_pos hm]
  · rw [if_neg hm, dget_dset_ne _ _ _ _ (fun h => hu h.symm)]

theorem connect_dget_uc_self (s : ServerState) (meta : ConnMeta)
    (u₀ : String) :
    dget (handleConnectEvent s meta (some u₀)).user_connections u₀ =
      some (connectInnerF s u₀ meta.platform meta.uuid) := by
  rw [connect_uc_eq, dget_dset_self]

theorem connectInner0_dget (s : ServerState) (u₀ p : String) :
    dget (connectInner0 s u₀) p = dget ((dget s.user_connections u₀).getD []) p := by
  rw [connectInner0, connectExtendUC]
  by_cases hm : dmem s.user_connections u₀ = true
  · rw [if_pos hm]
  · rw [if_neg hm, dget_dset_self, Option.getD_some,
      (dmem_false_iff s.user_connections u₀).mp (by simpa using hm)]
    rfl

theorem connectInnerExt_dget_ne (s : ServerState) (u₀ p₀ p : String)
    (hp : p ≠ p₀) :
    dget (connectInnerExt s u₀ p₀) p = dget (connectInner0 s u₀) p := by
  rw [connectInnerExt]
  by_cases hm : dmem (connectInner0 s u₀) p₀ = true
  · rw [if_pos hm]
  · rw [if_neg hm, dget_dset_ne _ _ _ _ (fun h => hp h.symm)]

theorem connectInnerF_dget_self (s : ServerState) (u₀ p₀ c₀ : String) :
    dget (connectInnerF s u₀ p₀ c₀) p₀ =
      some (sadd ((dget (connectInnerExt s u₀ p₀) p₀).getD []) c₀) := by
  rw [connectInnerF, dget_dset_self]

theorem connectInnerF_dget_ne (s : ServerState) (u₀ p₀ c₀ p : String)
    (hp : p ≠ p₀) :
    dget (connectInnerF s u₀ p₀ c₀) p = dget (connectInner0 s u₀) p := by
  rw [connectInnerF, dget_dset_ne _ _ _ _ (fun h => hp h.symm),
    connectInnerExt_dget_ne s u₀ p₀ p hp]

theorem connect_mem_dget2 (s : ServerState) (meta : ConnMeta)
    (u₀ u p c : String) :
    c ∈ dget2 (handleConnectEvent s meta (some u₀)).user_connections u p ↔
      c ∈ dget2 s.user_connections u p ∨
        (c = meta.uuid ∧ u = u₀ ∧ p = meta.platform) := by
  rw [connect_dget2]
  by_cases h : u = u₀ ∧ p = meta.platform
  · rw [if_pos h, mem_sadd]
    obtain ⟨hu, hp⟩ := h
    subst hu; subst hp
    constructor
    · rintro (hc | hc)
      · exact Or.inl hc
      · exact Or.inr ⟨hc, rfl, rfl⟩
    · rintro (hc | ⟨hc, _, _⟩)
      · exact Or.inl hc
      · exact Or.inr hc
  · rw [if_neg h]
    constructor
    · exact Or.inl
    · rintro (hc | ⟨_, hu, hp⟩)
      · exact hc
      · exact absurd ⟨hu, hp⟩ h

theorem connect_dmem_uc (s : ServerState) (meta : ConnMeta) (u₀ x : String) :
    dmem (handleConnectEvent s meta (some u₀)).user_connections x = true ↔
      dmem s.user_connections x = true ∨ x = u₀ := by
  rw [connect_uc_eq, dmem_dset, connectExtendUC]
  by_cases hm : dmem s.user_connections u₀ = true
  · rw [if_pos hm]
    constructor
    · rintro (h | h)
      · exact Or.inr h
      · exact Or.inl h
    · rintro (h | h)
      · exact Or.inr h
      · exact Or.inl h
  · rw [if_neg hm, dmem_dset]
    constructor
    · rintro (h | h | h)
      · exact Or.inr h
      · exact Or.inr h
      · exact Or.inl h
    · rintro (h | h)
      · exact Or.inr (Or.inr h)
      · exact Or.inl h

theorem regInv_connect (s : ServerState) (meta : ConnMeta)
    (auth : Option String) (inv : RegInv s)
    (hwf : wfEvent s (.connect meta auth) = true) :
    RegInv (handleConnectEvent s meta auth) := by
  cases auth with
  | none => exact inv
  | some u₀ =>
    have hfresh : dget s.connection_users meta.uuid = none :=
      (dmem_false_iff s.connection_users meta.uuid).mp
        (by simpa [wfEvent] using hwf)
    have hcmnone : dget s.connection_metadata meta.uuid = none := by
      have h := inv.domEq meta.uuid
      rw [hfresh] at h
      cases hcm : dget s.connection_metadata meta.uuid with
      | none => rfl
      | some m => rw [hcm] at h; simp at h
    have hnotuc : ∀ u p, meta.uuid ∉ dget2 s.user_connections u p := by
      intro u p hmem
      have h := (inv.back u p meta.uuid hmem).1
      rw [hfresh] at h
      exact Option.noConfusion h
    have hnotpc : ∀ p, meta.uuid ∉ dget1 s.platform_connections p := by
      intro p hmem
      rcases (inv.plat p meta.uuid).mp hmem with ⟨m, hm, _⟩
      rw [hcmnone] at hm
      exact Option.noConfusion hm
    have hcu_self :
        dget (handleConnectEvent s meta (some u₀)).connection_users
          meta.uuid = some u₀ := by
      rw [connect_cu, dget_dset_self]
    have hcu_ne : ∀ c, c ≠ meta.uuid →
        dget (handleConnectEvent s meta (some u₀)).connection_users c =
          dget s.connection_users c := by
      intro c hc
      rw [connect_cu, dget_dset_ne _ _ _ _ (fun h => hc h.symm)]
    have hcm_self :
        dget (handleConnectEvent s meta (some u₀)).connection_metadata
          meta.uuid = some meta := by
      rw [connect_cm, dget_dset_self]
    have hcm_ne : ∀ c, c ≠ meta.uuid →
        dget (handleConnectEvent s meta (some u₀)).connection_metadata c =
          dget s.connection_metadata c := by
      intro c hc
      rw [connect_cm, dget_dset_ne _ _ _ _ (fun h => hc h.symm)]
    have hnd0 : DNodup (connectInner0 s u₀) := by
      rw [connectInner0, connectExtendUC]
      by_cases hm1 : dmem s.user_connections u₀ = true
      · rw [if_pos hm1]
        rcases (dmem_true_iff _ _).mp hm1 with ⟨x, hx⟩
        rw [hx, Option.getD_some]
        exact inv.ndInner u₀ x hx
      · rw [if_neg hm1, dget_dset_self, Option.getD_some]
        exact List.nodup_nil
    refine
      { ndUC := ?_, ndPC := ?_, ndCU := ?_, ndCM := ?_, ndInner := ?_
        domEq := ?_, fwd := ?_, back := ?_, plat := ?_
        pruneU := ?_, pruneP := ?_ }
    · rw [connect_uc_eq]
      apply dnodup_dset
      rw [connectExtendUC]
      by_cases hm1 : dmem s.user_connections u₀ = true
      · rw [if_pos hm1]; exact inv.ndUC
      · rw [if_neg hm1]; exact dnodup_dset _ _ _ inv.ndUC
    · rw [connect_pc]
      exact dnodup_dset _ _ _ inv.ndPC
    · rw [connect_cu]
      exact dnodup_dset _ _ _ inv.ndCU
    · rw [connect_cm]
      exact dnodup_dset _ _ _ inv.ndCM
    · intro u inner h
      by_cases hu : u = u₀
      · subst hu
        rw [connect_dget_uc_self] at h
        injection h with h'
        rw [← h', connectInnerF]
        apply dnodup_dset
        rw [connectInnerExt]
        by_cases hm2 : dmem (connectInner0 s u) meta.platform = true
        · rw [if_pos hm2]; exact hnd0
        · rw [if_neg hm2]; exact dnodup_dset _ _ _ hnd0
      · rw [connect_dget_uc_ne s meta u₀ u hu] at h
        exact inv.ndInner u inner h
    · intro c
      by_cases hc : c = meta.uuid
      · subst hc
        rw [hcu_self, hcm_self]
        rfl
      · rw [hcu_ne c hc, hcm_ne c hc]
        exact inv.domEq c
    · intro c u h
      by_cases hc : c = meta.uuid
      · subst hc
        rw [hcu_self] at h
        injection h with hu
        refine ⟨meta, hcm_self, ?_⟩
        rw [← hu]
        exact (connect_mem_dget2 s meta u₀ u₀ meta.platform
          meta.uuid).mpr (Or.inr ⟨rfl, rfl, rfl⟩)
      · rw [hcu_ne c hc] at h
        rcases inv.fwd c u h with ⟨m, hm, hmem⟩
        refine ⟨m, by rw [hcm_ne c hc]; exact hm, ?_⟩
        exact (connect_mem_dget2 s meta u₀ u m.platform c).mpr (Or.inl hmem)
    · intro u p c hmem
      rcases (connect_mem_dget2 s meta u₀ u p c).mp hmem with
        hold | ⟨hc, hu, hp⟩
      · rcases inv.back u p c hold with ⟨hcu, m, hm, hmp⟩
        have hc : c ≠ meta.uuid := by
          intro h
          rw [h, hfresh] at hcu
          exact Option.noConfusion hcu
        exact ⟨by rw [hcu_ne c hc]; exact hcu,
          ⟨m, by rw [hcm_ne c hc]; exact hm, hmp⟩⟩
      · subst hc; subst hu; subst hp
        exact ⟨hcu_self, ⟨meta, hcm_self, rfl⟩⟩
    · intro p c
      have hpc1 :
          dget1 (handleConnectEvent s meta (some u₀)).platform_connections
            p = if p = meta.platform then
              sadd (dget1 s.platform_connections meta.platform) meta.uuid
            else dget1 s.platform_connections p := by
        rw [connect_pc, dget1_dset]
      rw [hpc1]
      by_cases hp : p = meta.platform
      · subst hp
        rw [if_pos rfl, mem_sadd]
        constructor
        · rintro (hc | hc)
          · have hcc : c ≠ meta.uuid := by
              intro h
              rw [h] at hc
              exact hnotpc meta.platform hc
            rcases (inv.plat meta.platform c).mp hc with ⟨m, hm, hmp⟩
            exact ⟨m, by rw [hcm_ne c hcc]; exact hm, hmp⟩
          · subst hc
            exact ⟨meta, hcm_self, rfl⟩
        · rintro ⟨m, hm, hmp⟩
          by_cases hcc : c = meta.uuid
          · exact Or.inr hcc
          · rw [hcm_ne c hcc] at hm
            exact Or.inl ((inv.plat meta.platform c).mpr ⟨m, hm, hmp⟩)
      · rw [if_neg hp]
        constructor
        · intro hc
          have hcc : c ≠ meta.uuid := by
            intro h
            rw [h] at hc
            exact hnotpc p hc
          rcases (inv.plat p c).mp hc with ⟨m, hm, hmp⟩
          exact ⟨m, by rw [hcm_ne c hcc]; exact hm, hmp⟩
        · rintro ⟨m, hm, hmp⟩
          by_cases hcc : c = meta.uuid
          · subst hcc
            rw [hcm_self] at hm
            injection hm with hm'
            rw [← hm'] at hmp
            exact absurd hmp.symm hp
          · rw [hcm_ne c hcc] at hm
            exact (inv.plat p c).mpr ⟨m, hm, hmp⟩
    · intro u inner h
      by_cases hu : u = u₀
      · subst hu
        rw [connect_dget_uc_self] at h
        injection h with h'
        rw [← h']
        constructor
        · rw [connectInnerF]
          exact dset_ne_nil _ _ _
        · intro p st hst
          by_cases hp : p = meta.platform
          · subst hp
            rw [connectInnerF_dget_self] at hst
            injection hst with h2
            rw [← h2]
            exact sadd_ne_nil _ _
          · rw [connectInnerF_dget_ne s u meta.platform meta.uuid p hp,
              connectInner0_dget] at hst
            cases hx : dget s.user_connections u with
            | none =>
              rw [hx] at hst
              simp [dget] at hst
            | some x =>
              rw [hx, Option.getD_some] at hst
              exact (inv.pruneU u x hx).2 p st hst
      · rw [connect_dget_uc_ne s meta u₀ u hu] at h
        exact inv.pruneU u inner h
    · intro p st h
      rw [connect_pc] at h
      by_cases hp : p = meta.platform
      · subst hp
        rw [dget_dset_self] at h
        injection h with h'
        rw [← h']
        exact sadd_ne_nil _ _
      · rw [dget_dset_ne _ _ _ _ (fun hh => hp hh.symm)] at h
        exact inv.pruneP p st h

theorem dget_prune_ne {α : Type} (d : Dict α) (k₀ k : String) (v : α)
    (c : Prop) [Decidable c] (h : k ≠ k₀) :
    dget (if c then ddel d k₀ else dset d k₀ v) k = dget d k := by
  by_cases hc : c
  · rw [if_pos hc, dget_ddel_ne d k₀ k (fun hh => h hh.symm)]
  · rw [if_neg hc, dget_dset_ne d k₀ k v (fun hh => h hh.symm)]

theorem dget_prune_self {α : Type} (d : Dict α) (k₀ : String) (v : α)
    (c : Prop) [Decidable c] (hnd : DNodup d) :
    dget (if c then ddel d k₀ else dset d k₀ v) k₀ =
      if c then none else some v := by
  by_cases hc : c
  · rw [if_pos hc, if_pos hc, dget_ddel_self d k₀ hnd]
  · rw [if_neg hc, if_neg hc, dget_dset_self]

theorem dnodup_prune {α : Type} (d : Dict α) (k₀ : String) (v : α)
    (c : Prop) [Decidable c] (hnd : DNodup d) :
    DNodup (if c then ddel d k₀ else dset d k₀ v) := by
  by_cases hc : c
  · rw [if_pos hc]; exact dnodup_ddel d k₀ hnd
  · rw [if_neg hc]; exact dnodup_dset d k₀ v hnd

theorem isEmpty_false_ne_nil {α : Type} (l : List α)
    (h : l.isEmpty = false) : l ≠ [] := by
  cases l with
  | nil => simp at h
  | cons hd tl => simp

theorem dget1_prune (d : Dict (List String)) (k₀ : String)
    (v : List String) (c : Prop) [Decidable c] (hnd : DNodup d) (k : String) :
    dget1 (if c then ddel d k₀ else dset d k₀ v) k =
      if k = k₀ then (if c then [] else v) else dget1 d k := by
  by_cases h : k = k₀
  · subst h
    rw [dget1, dget_prune_self d k v c hnd, if_pos rfl]
    by_cases hc : c
    · rw [if_pos hc, if_pos hc]; rfl
    · rw [if_neg hc, if_neg hc]; rfl
  · rw [dget1, dget_prune_ne d k₀ k v c h, if_neg h, dget1]

theorem regInv_disconnect (s : ServerState) (meta : ConnMeta)
    (inv : RegInv s) (hwf : wfEvent s (.disconnect meta) = true) :
    RegInv (handleDisconnectEvent s meta) := by
  cases hcu : dget s.connection_users meta.uuid with
  | none =>
    simp only [handleDisconnectEvent, hcu]
    exact inv
  | some u₀ =>
    -- the registered metadata and its platform
    have hdom := inv.domEq meta.uuid
    rw [hcu] at hdom
    cases hcmE : dget s.connection_metadata meta.uuid with
    | none => rw [hcmE] at hdom; simp at hdom
    | some m =>
    have hplat : m.platform = meta.platform := by
      have h := hwf
      simp only [wfEvent, hcmE, beq_iff_eq] at h
      exact h
    rcases inv.fwd meta.uuid u₀ hcu with ⟨m', hm', hmemf⟩
    rw [hcmE] at hm'
    injection hm' with hm'e
    rw [← hm'e] at hmemf
    -- the user's platform map and the platform's set actually hold the uuid
    cases hux : dget s.user_connections u₀ with
    | none =>
      rw [dget2, hux] at hmemf
      simp [dget1, dget] at hmemf
    | some x =>
    rw [dget2, hux, Option.getD_some] at hmemf
    cases hset : dget x m.platform with
    | none =>
      rw [dget1, hset] at hmemf
      simp at hmemf
    | some set₀ =>
    rw [dget1, hset, Option.getD_some] at hmemf
    have hpcmem : meta.uuid ∈ dget1 s.platform_connections meta.platform :=
      (inv.plat meta.platform meta.uuid).mpr ⟨m, hcmE, hplat⟩
    cases hpcx : dget s.platform_connections meta.platform with
    | none =>
      rw [dget1, hpcx] at hpcmem
      simp at hpcmem
    | some set₁ =>
    rw [dget1, hpcx, Option.getD_some] at hpcmem
    have hdmemUC : dmem s.user_connections u₀ = true := by
      rw [dmem, hux]; rfl
    have hdmemX : dmem x meta.platform = true := by
      rw [dmem, ← hplat, hset]; rfl
    have hdmemPC : dmem s.platform_connections meta.platform = true := by
      rw [dmem, hpcx]; rfl
    have hndx : DNodup x := inv.ndInner u₀ x hux
    -- explicit form of the post-state
    have hstate : handleDisconnectEvent s meta =
        { user_connections :=
            if (if (sdiscard set₀ meta.uuid).isEmpty = true
                  then ddel x meta.platform
                  else dset x meta.platform
                    (sdiscard set₀ meta.uuid)).isEmpty = true
              then ddel s.user_connections u₀
              else dset s.user_connections u₀
                (if (sdiscard set₀ meta.uuid).isEmpty = true
                  then ddel x meta.platform
                  else dset x meta.platform (sdiscard set₀ meta.uuid))
          platform_connections :=
            if (sdiscard set₁ meta.uuid).isEmpty = true
              then ddel s.platform_connections meta.platform
              else dset s.platform_connections meta.platform
                (sdiscard set₁ meta.uuid)
          connection_users := ddel s.connection_users meta.uuid
          connection_metadata := ddel s.connection_metadata meta.uuid } := by
      have hset' : dget x meta.platform = some set₀ := by
        rw [← hplat]; exact hset
      simp only [handleDisconnectEvent, hcu, hcmE, hplat, hux, hdmemUC,
        hdmemX, hdmemPC, Option.getD_some, if_true, hset', dget1, hpcx]
    have hset' : dget x meta.platform = some set₀ := by
      rw [← hplat]; exact hset
    have hd2x : ∀ p, dget2 s.user_connections u₀ p = dget1 x p := by
      intro p
      rw [dget2, hux, Option.getD_some]
    have hd1pc : dget1 s.platform_connections meta.platform = set₁ := by
      rw [dget1, hpcx, Option.getD_some]
    rw [hstate]
    set ps₀ := sdiscard set₀ meta.uuid with hps₀def
    set Ei := if ps₀.isEmpty = true then ddel x meta.platform
      else dset x meta.platform ps₀ with hEidef
    set Eu := if Ei.isEmpty = true then ddel s.user_connections u₀
      else dset s.user_connections u₀ Ei with hEudef
    set ps₁ := sdiscard set₁ meta.uuid with hps₁def
    set Ep := if ps₁.isEmpty = true then ddel s.platform_connections
      meta.platform else dset s.platform_connections meta.platform ps₁
      with hEpdef
    -- structure of the pruned inner map when it came out empty
    have hEiNil : Ei = [] →
        x = [(meta.platform, set₀)] ∧ ps₀.isEmpty = true := by
      intro hnil
      rw [hEidef] at hnil
      by_cases hp : ps₀.isEmpty = true
      · rw [if_pos hp] at hnil
        rcases ddel_eq_nil x meta.platform hnil with hx | ⟨v, hv⟩
        · rw [hx] at hset'
          exact absurd hset' (by simp [dget])
        · rw [hv] at hset'
          rw [dget_cons_self] at hset'
          injection hset' with hval
          exact ⟨by rw [hv, hval], hp⟩
      · rw [if_neg hp] at hnil
        exact absurd hnil (dset_ne_nil _ _ _)
    -- lookups in the pruned user table
    have hEu_ne : ∀ u, u ≠ u₀ → dget Eu u = dget s.user_connections u := by
      intro u hu
      rw [hEudef]
      exact dget_prune_ne s.user_connections u₀ u Ei _ hu
    have hEu_self : dget Eu u₀ =
        if Ei.isEmpty = true then none else some Ei := by
      rw [hEudef]
      exact dget_prune_self s.user_connections u₀ Ei _ inv.ndUC
    have hEi_ne : ∀ p, p ≠ meta.platform → dget Ei p = dget x p := by
      intro p hp
      rw [hEidef]
      exact dget_prune_ne x meta.platform p ps₀ _ hp
    have hEi_self : dget Ei meta.platform =
        if ps₀.isEmpty = true then none else some ps₀ := by
      rw [hEidef]
      exact dget_prune_self x meta.platform ps₀ _ hndx
    -- master membership lemma for the user table
    have Muc : ∀ u p c, c ∈ dget2 Eu u p ↔
        (c ∈ dget2 s.user_connections u p ∧
          ¬(c = meta.uuid ∧ u = u₀ ∧ p = meta.platform)) := by
      intro u p c
      by_cases hu : u = u₀
      · subst hu
        by_cases hEe : Ei.isEmpty = true
        · rw [dget2, hEu_self, if_pos hEe]
          rcases hEiNil (by simpa using hEe) with ⟨hx, hps⟩
          constructor
          · intro hmem
            simp [dget1, dget] at hmem
          · rintro ⟨hmem, hnot⟩
            exfalso
            rw [hd2x p, hx] at hmem
            by_cases hp : p = meta.platform
            · subst hp
              rw [dget1, dget_cons_self, Option.getD_some] at hmem
              have hcall := (sdiscard_eq_nil_iff set₀ meta.uuid).mp
                (by simpa using hps)
              exact hnot ⟨hcall c hmem, rfl, rfl⟩
            · rw [dget1, dget_cons_ne [] meta.platform p set₀
                (fun hh => hp hh.symm)] at hmem
              simp [dget] at hmem
        · rw [dget2, hEu_self, if_neg hEe, Option.getD_some]
          by_cases hp : p = meta.platform
          · subst hp
            rw [dget1, hEi_self]
            by_cases hps : ps₀.isEmpty = true
            · rw [if_pos hps, Option.getD_none]
              have hcall := (sdiscard_eq_nil_iff set₀ meta.uuid).mp
                (by simpa using hps)
              constructor
              · intro hmem
                simp at hmem
              · rintro ⟨hmem, hnot⟩
                rw [hd2x meta.platform, dget1, hset',
                  Option.getD_some] at hmem
                exact absurd ⟨hcall c hmem, rfl, rfl⟩ hnot
            · rw [if_neg hps, Option.getD_some, hps₀def, mem_sdiscard]
              rw [hd2x meta.platform, dget1, hset', Option.getD_some]
              constructor
              · rintro ⟨hmem, hne⟩
                exact ⟨hmem, fun hh => hne hh.1⟩
              · rintro ⟨hmem, hnot⟩
                refine ⟨hmem, fun hh => hnot ⟨hh, rfl, rfl⟩⟩
          · rw [dget1, hEi_ne p hp, hd2x p, dget1]
            constructor
            · intro hmem
              exact ⟨hmem, fun hh => hp hh.2.2⟩
            · exact fun hh => hh.1
      · rw [dget2, hEu_ne u hu, ← dget2]
        constructor
        · intro hmem
          exact ⟨hmem, fun hh => hu hh.2.1⟩
        · exact fun hh => hh.1
    -- master membership lemma for the platform index
    have Mpc : ∀ p c, c ∈ dget1 Ep p ↔
        (c ∈ dget1 s.platform_connections p ∧
          ¬(c = meta.uuid ∧ p = meta.platform)) := by
      intro p c
      have h1 : dget1 Ep p = if p = meta.platform
          then (if ps₁.isEmpty = true then [] else ps₁)
          else dget1 s.platform_connections p := by
        rw [hEpdef]
        exact dget1_prune s.platform_connections meta.platform ps₁ _
          inv.ndPC p
      rw [h1]
      by_cases hp : p = meta.platform
      · subst hp
        rw [if_pos rfl, hd1pc]
        by_cases hps : ps₁.isEmpty = true
        · rw [if_pos hps]
          have hcall := (sdiscard_eq_nil_iff set₁ meta.uuid).mp
            (by simpa using hps)
          constructor
          · intro hmem
            simp at hmem
          · rintro ⟨hmem, hnot⟩
            exact absurd ⟨hcall c hmem, rfl⟩ hnot
        · rw [if_neg hps, hps₁def, mem_sdiscard]
          constructor
          · rintro ⟨hmem, hne⟩
            exact ⟨hmem, fun hh => hne hh.1⟩
          · rintro ⟨hmem, hnot⟩
            exact ⟨hmem, fun hh => hnot ⟨hh, rfl⟩⟩
      · rw [if_neg hp]
        constructor
        · intro hmem
          exact ⟨hmem, fun hh => hp hh.2⟩
        · exact fun hh => hh.1
    refine
      { ndUC := ?_, ndPC := ?_, ndCU := ?_, ndCM := ?_, ndInner := ?_
        domEq := ?_, fwd := ?_, back := ?_, plat := ?_
        pruneU := ?_, pruneP := ?_ }
    · rw [hEudef]
      exact dnodup_prune _ _ _ _ inv.ndUC
    · rw [hEpdef]
      exact dnodup_prune _ _ _ _ inv.ndPC
    · exact dnodup_ddel _ _ inv.ndCU
    · exact dnodup_ddel _ _ inv.ndCM
    · intro u inner h
      by_cases hu : u = u₀
      · subst hu
        rw [show dget Eu u = dget Eu u from rfl, hEu_self] at h
        by_cases hEe : Ei.isEmpty = true
        · rw [if_pos hEe] at h
          exact Option.noConfusion h
        · rw [if_neg hEe] at h
          injection h with h'
          rw [← h', hEidef]
          exact dnodup_prune _ _ _ _ hndx
      · rw [hEu_ne u hu] at h
        exact inv.ndInner u inner h
    · intro c
      by_cases hc : c = meta.uuid
      · subst hc
        rw [dget_ddel_self _ _ inv.ndCU, dget_ddel_self _ _ inv.ndCM]
        rfl
      · rw [dget_ddel_ne _ _ _ (fun hh => hc hh.symm),
          dget_ddel_ne _ _ _ (fun hh => hc hh.symm)]
        exact inv.domEq c
    · intro c u h
      by_cases hc : c = meta.uuid
      · subst hc
        rw [dget_ddel_self _ _ inv.ndCU] at h
        exact Option.noConfusion h
      · rw [dget_ddel_ne _ _ _ (fun hh => hc hh.symm)] at h
        rcases inv.fwd c u h with ⟨m₂, hm₂, hmem₂⟩
        refine ⟨m₂, ?_, ?_⟩
        · rw [dget_ddel_ne _ _ _ (fun hh => hc hh.symm)]
          exact hm₂
        · exact (Muc u m₂.platform c).mpr ⟨hmem₂, fun hh => hc hh.1⟩
    · intro u p c hmem
      rcases (Muc u p c).mp hmem with ⟨hold, hnot⟩
      rcases inv.back u p c hold with ⟨hcuold, m₂, hm₂, hm₂p⟩
      have hc : c ≠ meta.uuid := by
        intro hh
        rw [hh, hcu] at hcuold
        injection hcuold with hueq
        rw [hh, hcmE] at hm₂
        injection hm₂ with hmeq
        exact hnot ⟨hh, hueq.symm, by rw [← hm₂p, ← hmeq, hplat]⟩
      refine ⟨?_, m₂, ?_, hm₂p⟩
      · rw [dget_ddel_ne _ _ _ (fun hh => hc hh.symm)]
        exact hcuold
      · rw [dget_ddel_ne _ _ _ (fun hh => hc hh.symm)]
        exact hm₂
    · intro p c
      rw [Mpc p c]
      by_cases hc : c = meta.uuid
      · subst hc
        constructor
        · rintro ⟨hmem, hnot⟩
          exfalso
          rcases (inv.plat p meta.uuid).mp hmem with ⟨m₂, hm₂, hm₂p⟩
          rw [hcmE] at hm₂
          injection hm₂ with hmeq
          exact hnot ⟨rfl, by rw [← hm₂p, ← hmeq, hplat]⟩
        · rintro ⟨m₂, hm₂, hm₂p⟩
          rw [dget_ddel_self _ _ inv.ndCM] at hm₂
          exact Option.noConfusion hm₂
      · constructor
        · rintro ⟨hmem, hnot⟩
          rcases (inv.plat p c).mp hmem with ⟨m₂, hm₂, hm₂p⟩
          refine ⟨m₂, ?_, hm₂p⟩
          rw [dget_ddel_ne _ _ _ (fun hh => hc hh.symm)]
          exact hm₂
        · rintro ⟨m₂, hm₂, hm₂p⟩
          rw [dget_ddel_ne _ _ _ (fun hh => hc hh.symm)] at hm₂
          exact ⟨(inv.plat p c).mpr ⟨m₂, hm₂, hm₂p⟩, fun hh => hc hh.1⟩
    · intro u inner h
      by_cases hu : u = u₀
      · subst hu
        rw [hEu_self] at h
        by_cases hEe : Ei.isEmpty = true
        · rw [if_pos hEe] at h
          exact Option.noConfusion h
        · rw [if_neg hEe] at h
          injection h with h'
          rw [← h']
          refine ⟨isEmpty_false_ne_nil Ei (by simpa using hEe), ?_⟩
          intro p st hst
          by_cases hp : p = meta.platform
          · subst hp
            rw [hEi_self] at hst
            by_cases hps : ps₀.isEmpty = true
            · rw [if_pos hps] at hst
              exact Option.noConfusion hst
            · rw [if_neg hps] at hst
              injection hst with h2
              rw [← h2]
              exact isEmpty_false_ne_nil ps₀ (by simpa using hps)
          · rw [hEi_ne p hp] at hst
            exact (inv.pruneU u x hux).2 p st hst
      · rw [hEu_ne u hu] at h
        exact inv.pruneU u inner h
    · intro p st h
      by_cases hp : p = meta.platform
      · subst hp
        rw [hEpdef, dget_prune_self _ _ _ _ inv.ndPC] at h
        by_cases hps : ps₁.isEmpty = true
        · rw [if_pos hps] at h
          exact Option.noConfusion h
        · rw [if_neg hps] at h
          injection h with h'
          rw [← h']
          exact isEmpty_false_ne_nil ps₁ (by simpa using hps)
      · rw [hEpdef, dget_prune_ne _ _ _ _ _ hp] at h
        exact inv.pruneP p st h

theorem regInv_empty : RegInv emptyServerState := by
  refine
    { ndUC := ?_, ndPC := ?_, ndCU := ?_, ndCM := ?_, ndInner := ?_
      domEq := ?_, fwd := ?_, back := ?_, plat := ?_
      pruneU := ?_, pruneP := ?_ } <;>
    simp [emptyServerState, DNodup, dget, dget1, dget2, dmem]

theorem regInv_step (s : ServerState) (e : SEvent) (inv : RegInv s)
    (hwf : wfEvent s e = true) : RegInv (stepEvent s e) := by
  cases e with
  | connect meta auth => exact regInv_connect s meta auth inv hwf
  | disconnect meta => exact regInv_disconnect s meta inv hwf

theorem regInv_process (es : List SEvent) (s : ServerState) (inv : RegInv s)
    (hwf : wfTrace s es = true) : RegInv (processEvents s es) := by
  induction es generalizing s with
  | nil => exact inv
  | cons e tl ih =>
    rw [wfTrace, Bool.and_eq_true] at hwf
    exact ih (stepEvent s e) (regInv_step s e inv hwf.1) hwf.2

theorem isSome_of_mem_dget2 (d : Dict (Dict (List String))) (u p c : String)
    (h : c ∈ dget2 d u p) : ∃ inner, dget d u = some inner := by
  cases hx : dget d u with
  | none =>
    rw [dget2, hx] at h
    simp [dget1, dget] at h
  | some inner => exact ⟨inner, rfl⟩

theorem regInv_implies_registryInvariant (s : ServerState) (inv : RegInv s) :
    registryInvariant s := by
  refine ⟨?_, ?_, inv.pruneU, inv.pruneP⟩
  · intro c u
    constructor
    · intro h
      rcases inv.fwd c u h with ⟨m, hm, hmem⟩
      rcases isSome_of_mem_dget2 _ _ _ _ hmem with ⟨inner, hinner⟩
      refine ⟨?_, m, hm, hmem⟩
      rw [dmem, hinner]
      rfl
    · rintro ⟨hdm, m, hm, hmem⟩
      exact (inv.back u m.platform c hmem).1
  · intro p c
    constructor
    · intro h
      rcases (inv.plat p c).mp h with ⟨m, hm, hmp⟩
      have hd := inv.domEq c
      rw [hm] at hd
      cases hcu : dget s.connection_users c with
      | none => rw [hcu] at hd; simp at hd
      | some u =>
        rcases inv.fwd c u hcu with ⟨m₂, hm₂, hmem₂⟩
        rw [hm] at hm₂
        injection hm₂ with hme
        rw [← hme, hmp] at hmem₂
        exact ⟨u, hmem₂⟩
    · rintro ⟨u, hmem⟩
      rcases inv.back u p c hmem with ⟨hcu, m, hm, hmp⟩
      exact (inv.plat p c).mpr ⟨m, hm, hmp⟩

/-- **C1.** For every sequence of Connect and Disconnect events dispatched by
the server (any interleaving of users, platforms and connection uuids that
the network driver can produce: connect events carry fresh uuids, disconnect
events carry the metadata recorded at connect), the registry invariant of
spec §3 holds after the whole sequence — and therefore after every event,
since every prefix of a well-formed trace is itself a well-formed trace:
`connection_users[uuid] = u` iff `u` is a key of `user_connections` and
`uuid ∈ user_connections[u][p]` for the platform `p` recorded in
`connection_metadata[uuid]`; `platform_connections[p]` is the union over all
users of the connections on platform `p`; now-empty user and platform
entries are pruned. -/
theorem c1_registry_invariant (es : List SEvent)
    (hwf : wfTrace emptyServerState es = true) :
    registryInvariant (processEvents emptyServerState es) :=
  regInv_implies_registryInvariant _
    (regInv_process es emptyServerState regInv_empty hwf)

/-- **C1, witness.** A concrete interleaving of two users, two platforms and
three connections: connects, a reconnect and disconnects in mixed order. -/
theorem c1_registry_invariant_witness :
    wfTrace emptyServerState
      [SEvent.connect ⟨"c1", "k1", "qq"⟩ (some "u1"),
       SEvent.connect ⟨"c2", "k1", "wechat"⟩ (some "u1"),
       SEvent.connect ⟨"c3", "k2", "qq"⟩ (some "u2"),
       SEvent.connect ⟨"c4", "k3", "qq"⟩ none,
       SEvent.disconnect ⟨"c1", "k1", "qq"⟩,
       SEvent.connect ⟨"c5", "k2", "qq"⟩ (some "u2"),
       SEvent.disconnect ⟨"c3", "k2", "qq"⟩,
       SEvent.disconnect ⟨"c2", "k1", "wechat"⟩] = true ∧
    registryInvariant (processEvents emptyServerState
      [SEvent.connect ⟨"c1", "k1", "qq"⟩ (some "u1"),
       SEvent.connect ⟨"c2", "k1", "wechat"⟩ (some "u1"),
       SEvent.connect ⟨"c3", "k2", "qq"⟩ (some "u2"),
       SEvent.connect ⟨"c4", "k3", "qq"⟩ none,
       SEvent.disconnect ⟨"c1", "k1", "qq"⟩,
       SEvent.connect ⟨"c5", "k2", "qq"⟩ (some "u2"),
       SEvent.disconnect ⟨"c3", "k2", "qq"⟩,
       SEvent.disconnect ⟨"c2", "k1", "wechat"⟩]) :=
  ⟨by decide, c1_registry_invariant _ (by decide)⟩

/-- **C2.** For every message whose resolved target user (the outcome of
`on_auth_extract_user`) has no entry in `user_connections`, or whose entry
has no connection set on the message's target platform, `send_message`
returns an empty result map without raising; otherwise it sends to every
connection uuid in `userConnections[user][platform]` and returns the map
from each such uuid to that send's success. -/
theorem c2_send_message_routing (s : ServerState) (platform : String)
    (sendOk : String → Bool) (target_user : String) :
    (dget s.user_connections target_user = none →
      WebSocketServer.send_message s (some target_user) platform sendOk
        = []) ∧
    (∀ inner, dget s.user_connections target_user = some inner →
      dget inner platform = none →
      WebSocketServer.send_message s (some target_user) platform sendOk
        = []) ∧
    (∀ inner conns, dget s.user_connections target_user = some inner →
      dget inner platform = some conns →
      WebSocketServer.send_message s (some target_user) platform sendOk =
        conns.map (fun c => (c, sendOk c))) := by
  refine ⟨?_, ?_, ?_⟩
  · intro h
    simp [WebSocketServer.send_message, h]
  · intro inner h1 h2
    simp [WebSocketServer.send_message, h1, h2]
  · intro inner conns h1 h2
    simp [WebSocketServer.send_message, h1, h2]

/-- **C2, witness.** On the example registry, sending to the registered
user/platform reaches exactly connection `"c1"`, and sending to an
unregistered user returns the empty map. -/
theorem c2_send_message_routing_witness :
    WebSocketServer.send_message exampleRegistry (some "u1") "qq"
      (fun _ => true) = [("c1", true)] ∧
    WebSocketServer.send_message exampleRegistry (some "u2") "qq"
      (fun _ => true) = [] :=
  ⟨(c2_send_message_routing exampleRegistry "qq" (fun _ => true)
      "u1").2.2 [("qq", ["c1"])] ["c1"] (by decide) (by decide),
   (c2_send_message_routing exampleRegistry "qq" (fun _ => true)
      "u2").1 (by decide)⟩

/-- **C3 (code bug).** `send_custom_message` with only `target_user` given
does not send to the user's registered connections: it iterates the keys of
the user's *platform dictionary*, i.e. it treats the platform names as
connection uuids (on the example registry it "sends" to `"qq"` and never to
the actual connection `"c1"`); and with `target_user` and `target_platform`
both given it raises `TypeError`, because `user_connections[user]` is a dict
and `dict & set` is unsupported. -/
theorem c3_send_custom_message_bug :
    WebSocketServer.send_custom_message exampleRegistry (some "u1") none
      none (fun _ => true) = Except.ok [("qq", true)] ∧
    (WebSocketServer.send_custom_message exampleRegistry (some "u1") none
      none (fun _ => true) ≠ Except.ok [("c1", true)]) ∧
    WebSocketServer.send_custom_message exampleRegistry (some "u1")
      (some "qq") none (fun _ => true) =
      Except.error "TypeError: unsupported operand for &: dict and set" ∧
    WebSocketServer.send_custom_message exampleRegistry none none
      (some "c1") (fun _ => true) = Except.ok [("c1", true)] ∧
    WebSocketServer.send_custom_message exampleRegistry none none none
      (fun _ => true) = Except.ok [] := by
  refine ⟨rfl, ?_, rfl, rfl, rfl⟩
  intro h
  exact absurd (Except.ok.inj h) (by decide)

/-- **C8 (code bug).** After `stop()` on a registry with one active
connection, the reported connection count (`len(connection_users)`) is zero
and three of the four registry maps are empty — but `connection_metadata`
still holds the old entry, because `stop()` never clears it. -/
theorem c8_stop_leaves_metadata :
    WebSocketServer.get_connection_count
      (WebSocketServer.stop exampleRegistry) = 0 ∧
    (WebSocketServer.stop exampleRegistry).user_connections = [] ∧
    (WebSocketServer.stop exampleRegistry).platform_connections = [] ∧
    (WebSocketServer.stop exampleRegistry).connection_users = [] ∧
    (WebSocketServer.stop exampleRegistry).connection_metadata ≠ [] := by
  refine ⟨?_, ?_, ?_, ?_, ?_⟩ <;> decide

theorem connectionLoop_nil (cfg : ReconnectConfig) (st : RcState) :
    connectionLoop cfg st [] = ([], none) := rfl

theorem connectionLoop_cons (cfg : ReconnectConfig) (st : RcState)
    (o : Bool) (rest : List Bool) :
    connectionLoop cfg st (o :: rest) =
      if (afterAttempt cfg st o).reconnect_attempts <
          cfg.max_reconnect_attempts then
        (min (afterAttempt cfg st o).delay 30 ::
          (connectionLoop cfg
            ⟨(afterAttempt cfg st o).reconnect_attempts + 1,
              min cfg.max_reconnect_delay
                ((afterAttempt cfg st o).delay * 2)⟩ rest).1,
         (connectionLoop cfg
            ⟨(afterAttempt cfg st o).reconnect_attempts + 1,
              min cfg.max_reconnect_delay
                ((afterAttempt cfg st o).delay * 2)⟩ rest).2)
      else ([], some "error") := rfl

theorem afterAttempt_false (cfg : ReconnectConfig) (st : RcState) :
    afterAttempt cfg st false = st := rfl

theorem connectionLoop_allFail (cfg : ReconnectConfig) :
    ∀ (n i : Nat), i + n ≤ cfg.max_reconnect_attempts →
      connectionLoop cfg ⟨i, specDelay cfg i⟩ (List.replicate n false) =
        ((List.range' i n).map (fun j => min (specDelay cfg j) 30), none) := by
  intro n
  induction n with
  | zero =>
    intro i h
    rw [List.replicate_zero, connectionLoop_nil]
    simp [List.range']
  | succ k ih =>
    intro i h
    rw [List.replicate_succ, connectionLoop_cons,
      afterAttempt_false cfg ⟨i, specDelay cfg i⟩]
    dsimp only
    rw [if_pos (show i < cfg.max_reconnect_attempts by omega)]
    have hst : (⟨i + 1, min cfg.max_reconnect_delay (specDelay cfg i * 2)⟩ :
        RcState) = ⟨i + 1, specDelay cfg (i + 1)⟩ := rfl
    rw [hst, ih (i + 1) (by omega), List.range'_succ, List.map_cons]

/-- **C4 (amended).** The internal reconnect delay follows exactly the
claimed recurrence `d[0] = d0`, `d[i+1] = min(dmax, 2*d[i])`, and a
successful connect resets the attempt counter and delay to their initial
values (the run after a success is the run from the initial bookkeeping);
but the time actually waited before each reconnect attempt is
`min(d[i], 30)` seconds, not `d[i]`, because the code wraps the sleep in
`asyncio.wait_for(..., timeout=30.0)` and swallows the timeout. -/
theorem c4_reconnect_delay (cfg : ReconnectConfig) (n : Nat)
    (h : n ≤ cfg.max_reconnect_attempts) :
    (connectionLoop cfg (initRc cfg) (List.replicate n false)).1 =
      (List.range' 0 n).map (fun j => min (specDelay cfg j) 30) ∧
    (∀ st rest, connectionLoop cfg st (true :: rest) =
      connectionLoop cfg (initRc cfg) (true :: rest)) := by
  constructor
  · have hinit : initRc cfg = ⟨0, specDelay cfg 0⟩ := rfl
    rw [hinit, connectionLoop_allFail cfg n 0 (by omega)]
  · intro st rest
    rw [connectionLoop_cons, connectionLoop_cons]
    have h1 : afterAttempt cfg st true = afterAttempt cfg (initRc cfg) true :=
      rfl
    rw [h1]

/-- **C4, witness.** Three consecutive failures under the source defaults
(`d0 = 1`, `dmax = 30`, 5 attempts): the loop waits 1 s, 2 s, 4 s. -/
theorem c4_reconnect_delay_witness :
    3 ≤ defaultReconnectConfig.max_reconnect_attempts ∧
    (connectionLoop defaultReconnectConfig (initRc defaultReconnectConfig)
      (List.replicate 3 false)).1 =
      (List.range' 0 3).map
        (fun j => min (specDelay defaultReconnectConfig j) 30) :=
  ⟨by decide,
   (c4_reconnect_delay defaultReconnectConfig 3 (by decide)).1⟩

/-- **C4, counterexample to the claim as stated.** With `d0 = 40` and
`dmax = 100` the claim says the delay waited before the first reconnect is
`d[0] = 40` seconds; the code waits `min(40, 30) = 30` seconds, because the
reconnect sleep sits inside `asyncio.wait_for(..., timeout=30.0)` whose
`TimeoutError` is swallowed. -/
theorem c4_reconnect_delay_counterexample :
    (connectionLoop cfg40 (initRc cfg40) [false]).1 = [(30 : ℚ)] ∧
    specDelay cfg40 0 = 40 ∧
    (connectionLoop cfg40 (initRc cfg40) [false]).1 ≠
      [specDelay cfg40 0] := by
  refine ⟨?_, ?_, ?_⟩ <;> decide

theorem connectionLoop_exhaust (cfg : ReconnectConfig) :
    ∀ (k i : Nat), i + k = cfg.max_reconnect_attempts → ∀ rest,
      connectionLoop cfg ⟨i, specDelay cfg i⟩
          (List.replicate (k + 1) false ++ rest) =
        ((List.range' i k).map (fun j => min (specDelay cfg j) 30),
          some "error") := by
  intro k
  induction k with
  | zero =>
    intro i h rest
    rw [List.replicate_succ, List.replicate_zero, List.cons_append,
      List.nil_append, connectionLoop_cons,
      afterAttempt_false cfg ⟨i, specDelay cfg i⟩]
    dsimp only
    rw [if_neg (show ¬i < cfg.max_reconnect_attempts by omega)]
    simp [List.range']
  | succ k ih =>
    intro i h rest
    rw [List.replicate_succ, List.cons_append, connectionLoop_cons,
      afterAttempt_false cfg ⟨i, specDelay cfg i⟩]
    dsimp only
    rw [if_pos (show i < cfg.max_reconnect_attempts by omega)]
    have hst : (⟨i + 1, min cfg.max_reconnect_delay (specDelay cfg i * 2)⟩ :
        RcState) = ⟨i + 1, specDelay cfg (i + 1)⟩ := rfl
    rw [hst, ih (i + 1) (by omega) rest, List.range'_succ, List.map_cons]

/-- **C5.** When every connect attempt fails (and the driver stays running,
the connection stays in the table and no shutdown signal is set — the side
conditions of the claim, under which the loop keeps iterating), the loop
performs exactly `max_reconnect_attempts` reconnect attempts after the
initial failed attempt; when those are exhausted it sets the connection
state to `"error"` and exits, and no further attempt is ever made: the
result is independent of any further outcomes `rest`, which are never
consumed. -/
theorem c5_reconnect_exhaustion (cfg : ReconnectConfig) (rest : List Bool) :
    connectionLoop cfg (initRc cfg)
        (List.replicate (cfg.max_reconnect_attempts + 1) false ++ rest) =
      ((List.range' 0 cfg.max_reconnect_attempts).map
        (fun j => min (specDelay cfg j) 30), some "error") :=
  connectionLoop_exhaust cfg cfg.max_reconnect_attempts 0 (by omega) rest

theorem findLoopFull_eq (states : Dict String) (akey plat : String)
    (conns : Dict ConnectionConfig) :
    findLoopFull states akey plat conns =
      (conns.find? (fun pr => pr.2.api_key = akey ∧ pr.2.platform = plat ∧
        dget states pr.1 = some "connected")).map Prod.fst := by
  induction conns with
  | nil => rfl
  | cons hd tl ih =>
    obtain ⟨u, cfg⟩ := hd
    by_cases h : cfg.api_key = akey ∧ cfg.platform = plat ∧
        dget states u = some "connected"
    · simp only [findLoopFull, if_pos h, List.find?_cons]
      rw [decide_eq_true h]
      rfl
    · simp only [findLoopFull, if_neg h, List.find?_cons]
      rw [decide_eq_false h]
      exact ih

theorem findLoopApiKey_eq (states : Dict String) (akey : String)
    (conns : Dict ConnectionConfig) :
    findLoopApiKey states akey conns =
      (conns.find? (fun pr => pr.2.api_key = akey ∧
        dget states pr.1 = some "connected")).map Prod.fst := by
  induction conns with
  | nil => rfl
  | cons hd tl ih =>
    obtain ⟨u, cfg⟩ := hd
    by_cases h : cfg.api_key = akey ∧ dget states u = some "connected"
    · simp only [findLoopApiKey, if_pos h, List.find?_cons]
      rw [decide_eq_true h]
      rfl
    · simp only [findLoopApiKey, if_neg h, List.find?_cons]
      rw [decide_eq_false h]
      exact ih

theorem findLoopPlatform_eq (states : Dict String) (plat : String)
    (conns : Dict ConnectionConfig) :
    findLoopPlatform states plat conns =
      (conns.find? (fun pr => pr.2.platform = plat ∧
        dget states pr.1 = some "connected")).map Prod.fst := by
  induction conns with
  | nil => rfl
  | cons hd tl ih =>
    obtain ⟨u, cfg⟩ := hd
    by_cases h : cfg.platform = plat ∧ dget states u = some "connected"
    · simp only [findLoopPlatform, if_pos h, List.find?_cons]
      rw [decide_eq_true h]
      rfl
    · simp only [findLoopPlatform, if_neg h, List.find?_cons]
      rw [decide_eq_false h]
      exact ih

/-- **C6.** Client-side target resolution returns the first match of three
passes in order — (1) api_key and platform both matching with state
`"connected"`, (2) api_key matching and connected, (3) platform matching
and connected — and returns `none` exactly when no connected connection
matches the api_key or the platform: the implementation equals the search
described by the specification, and its `none` answers are characterised. -/
theorem c6_find_connection (connections : Dict ConnectionConfig)
    (connection_states : Dict String)
    (target_api_key target_platform : String) :
    WebSocketClient.find_connection_for_target connections connection_states
        target_api_key target_platform =
      findTargetSpec connections connection_states target_api_key
        target_platform ∧
    (WebSocketClient.find_connection_for_target connections connection_states
        target_api_key target_platform = none ↔
      ∀ pr ∈ connections,
        ¬(dget connection_states pr.1 = some "connected" ∧
          (pr.2.api_key = target_api_key ∨
            pr.2.platform = target_platform))) := by
  have key : ∀ (a b c : Option String),
      (match a with
       | some u => some u
       | none =>
          match b with
          | some u => some u
          | none => c) = ((a <|> b) <|> c) := by
    intro a b c
    cases a <;> cases b <;> cases c <;> rfl
  have hEq : WebSocketClient.find_connection_for_target connections
      connection_states target_api_key target_platform =
        findTargetSpec connections connection_states target_api_key
          target_platform := by
    simp only [WebSocketClient.find_connection_for_target, findTargetSpec,
      findLoopFull_eq, findLoopApiKey_eq, findLoopPlatform_eq,
      Option.map_orElse]
    exact key _ _ _
  refine ⟨hEq, ?_⟩
  rw [hEq, findTargetSpec]
  simp only [Option.map_eq_none', Option.orElse_eq_none,
    List.find?_eq_none, decide_eq_true_eq]
  constructor
  · rintro ⟨⟨h1, h2⟩, h3⟩ pr hpr ⟨hconn, hm⟩
    rcases hm with hak | hpl
    · exact h2 pr hpr ⟨hak, hconn⟩
    · exact h3 pr hpr ⟨hpl, hconn⟩
  · intro h
    refine ⟨⟨?_, ?_⟩, ?_⟩
    · rintro pr hpr ⟨hak, hpl, hconn⟩
      exact h pr hpr ⟨hconn, Or.inl hak⟩
    · rintro pr hpr ⟨hak, hconn⟩
      exact h pr hpr ⟨hconn, Or.inl hak⟩
    · rintro pr hpr ⟨hpl, hconn⟩
      exact h pr hpr ⟨hconn, Or.inr hpl⟩

/-- **C7.** For every received frame, an ACK envelope is attempted iff the
parsed data carries a truthy (non-empty) `msg_id` and its `type` is not
`"sys_ack"`; the attempted ACK has `type = "sys_ack"` and its meta carries
`acked_msg_id` equal to the received `msg_id`; at most one ACK send is ever
attempted per frame (no retry), and `handle_message` is total — a failed
ACK send is swallowed inside `_send_ack` and never surfaces. -/
theorem c7_ack_emission (jsonLoads : String → Option (Dict PyVal))
    (genId : String) (now : ℚ) (connections : List String)
    (queue : List CNetworkEvent) (connection_uuid : String)
    (frame : WSFrame) :
    ((handle_message jsonLoads genId now connections queue connection_uuid
        frame).2 ≠ [] ↔
      (pyGetTruthy (dget (parsedData jsonLoads frame) "msg_id") = true ∧
        pyNeStr (dget (parsedData jsonLoads frame) "type") "sys_ack" =
          true)) ∧
    (∀ a ∈ (handle_message jsonLoads genId now connections queue
        connection_uuid frame).2,
      dget a "type" = some (PyVal.str "sys_ack") ∧
      ∃ metaD, dget a "meta" = some (PyVal.dict metaD) ∧
        some (dget metaD "acked_msg_id") =
          some (dget (parsedData jsonLoads frame) "msg_id")) ∧
    (handle_message jsonLoads genId now connections queue connection_uuid
        frame).2.length ≤ 1 := by
  have hsplit : (handle_message jsonLoads genId now connections queue
      connection_uuid frame).2 =
      if (pyGetTruthy (dget (parsedData jsonLoads frame) "msg_id") &&
          pyNeStr (dget (parsedData jsonLoads frame) "type") "sys_ack") =
            true then
        [ackMessage genId connection_uuid
          ((dget (parsedData jsonLoads frame) "msg_id").getD
            (PyVal.str "")) now]
      else [] := rfl
  by_cases hcond : (pyGetTruthy (dget (parsedData jsonLoads frame)
      "msg_id") && pyNeStr (dget (parsedData jsonLoads frame) "type")
        "sys_ack") = true
  · rw [Bool.and_eq_true] at hcond
    refine ⟨?_, ?_, ?_⟩
    · rw [hsplit, if_pos (by rw [Bool.and_eq_true]; exact hcond)]
      constructor
      · intro _
        exact hcond
      · intro _
        simp
    · intro a ha
      rw [hsplit, if_pos (by rw [Bool.and_eq_true]; exact hcond)] at ha
      rcases List.mem_singleton.mp ha with rfl
      refine ⟨rfl, ?_⟩
      cases hmid : dget (parsedData jsonLoads frame) "msg_id" with
      | none =>
        rw [hmid] at hcond
        exact absurd hcond.1 (by simp [pyGetTruthy])
      | some v =>
        exact ⟨[("uuid", PyVal.str connection_uuid),
          ("acked_msg_id", v),
          ("timestamp", PyVal.num now)], rfl, rfl⟩
    · rw [hsplit, if_pos (by rw [Bool.and_eq_true]; exact hcond)]
      simp
  · refine ⟨?_, ?_, ?_⟩
    · rw [hsplit, if_neg hcond]
      constructor
      · intro h
        exact absurd rfl h
      · intro h
        exact absurd (by rw [Bool.and_eq_true]; exact ⟨h.1, h.2⟩) hcond
    · intro a ha
      rw [hsplit, if_neg hcond] at ha
      exact absurd ha (List.not_mem_nil a)
    · rw [hsplit, if_neg hcond]
      simp

/-- **C7, witness.** A parsed frame carrying `msg_id = "m1"` and
`type = "sys_std"` triggers exactly one ACK attempt. -/
theorem c7_ack_emission_witness :
    (handle_message jsonLoadsExample "g" 0 ["c1"] [] "c1"
      (WSFrame.text "good")).2.length ≤ 1 ∧
    (handle_message jsonLoadsExample "g" 0 ["c1"] [] "c1"
      (WSFrame.text "good")).2 ≠ [] :=
  ⟨(c7_ack_emission jsonLoadsExample "g" 0 ["c1"] [] "c1"
      (WSFrame.text "good")).2.2,
   (c7_ack_emission jsonLoadsExample "g" 0 ["c1"] [] "c1"
      (WSFrame.text "good")).1.mpr ⟨rfl, rfl⟩⟩

/-- **C9.** A received text frame that fails JSON parsing is neither
discarded nor does it crash the read loop (`handle_message` is total): the
raw text is wrapped as `{"raw_message": <original text>}` and a `MESSAGE`
event carrying exactly that wrapped payload is appended to the event
queue. -/
theorem c9_raw_wrap (jsonLoads : String → Option (Dict PyVal))
    (genId : String) (now : ℚ) (connections : List String)
    (queue : List CNetworkEvent) (connection_uuid s : String)
    (hparse : jsonLoads s = none)
    (hconn : connection_uuid ∈ connections) :
    (handle_message jsonLoads genId now connections queue connection_uuid
        (WSFrame.text s)).1 =
      queue ++ [{ event_type := CEventType.message
                  connection_uuid := connection_uuid
                  payload := some [("raw_message", PyVal.str s)] }] := by
  simp only [handle_message, parsedData, hparse]
  rw [if_pos hconn]

/-- **C9, witness.** The text `"nope"` fails to parse and still reaches the
queue as a raw-wrapped `MESSAGE` event. -/
theorem c9_raw_wrap_witness :
    jsonLoadsExample "nope" = none ∧
    (handle_message jsonLoadsExample "g" 0 ["c1"] [] "c1"
        (WSFrame.text "nope")).1 =
      [] ++ [{ event_type := CEventType.message
               connection_uuid := "c1"
               payload := some [("raw_message", PyVal.str "nope")] }] :=
  ⟨rfl, c9_raw_wrap jsonLoadsExample "g" 0 ["c1"] [] "c1" "nope" rfl
    (by decide)⟩

/-- **C10.** `get_headers()` returns a map in which `x-uuid`, `x-apikey`
and `x-platform` equal the config's `connection_uuid`, `api_key` and
`platform` (the identity values win even over user-supplied entries under
the same keys, since `update` runs on the copy after it is taken), every
other key keeps the user-supplied value, and the stored config — its
`headers` dict included — is unmodified. -/
theorem c10_get_headers (cfg : ConnectionConfig) :
    dget (ConnectionConfig.get_headers cfg).1 "x-uuid" =
      some cfg.connection_uuid ∧
    dget (ConnectionConfig.get_headers cfg).1 "x-apikey" =
      some cfg.api_key ∧
    dget (ConnectionConfig.get_headers cfg).1 "x-platform" =
      some cfg.platform ∧
    (∀ k, k ≠ "x-uuid" → k ≠ "x-apikey" → k ≠ "x-platform" →
      dget (ConnectionConfig.get_headers cfg).1 k = dget cfg.headers k) ∧
    (ConnectionConfig.get_headers cfg).2 = cfg := by
  refine ⟨?_, ?_, ?_, ?_, rfl⟩
  · show dget (dset (dset (dset cfg.headers "x-uuid" cfg.connection_uuid)
      "x-apikey" cfg.api_key) "x-platform" cfg.platform) "x-uuid" = _
    rw [dget_dset_ne _ _ _ _ (by decide), dget_dset_ne _ _ _ _ (by decide),
      dget_dset_self]
  · show dget (dset (dset (dset cfg.headers "x-uuid" cfg.connection_uuid)
      "x-apikey" cfg.api_key) "x-platform" cfg.platform) "x-apikey" = _
    rw [dget_dset_ne _ _ _ _ (by decide), dget_dset_self]
  · show dget (dset (dset (dset cfg.headers "x-uuid" cfg.connection_uuid)
      "x-apikey" cfg.api_key) "x-platform" cfg.platform) "x-platform" = _
    rw [dget_dset_self]
  · intro k h1 h2 h3
    show dget (dset (dset (dset cfg.headers "x-uuid" cfg.connection_uuid)
      "x-apikey" cfg.api_key) "x-platform" cfg.platform) k = _
    rw [dget_dset_ne _ _ _ _ (fun hh => h3 hh.symm),
      dget_dset_ne _ _ _ _ (fun hh => h2 hh.symm),
      dget_dset_ne _ _ _ _ (fun hh => h1 hh.symm)]

/-- **C10, witness.** On a config whose user headers try to override
`x-apikey`, the config's identity values win, other user headers survive,
and the stored config is untouched. -/
theorem c10_get_headers_witness :
    dget (ConnectionConfig.get_headers exampleConnCfg).1 "x-apikey" =
      some "k1" ∧
    dget (ConnectionConfig.get_headers exampleConnCfg).1 "custom" =
      some "v" ∧
    (ConnectionConfig.get_headers exampleConnCfg).2 = exampleConnCfg :=
  ⟨(c10_get_headers exampleConnCfg).2.1,
   by
    rw [(c10_get_headers exampleConnCfg).2.2.2.1 "custom" (by decide)
      (by decide) (by decide)]
    decide,
   (c10_get_headers exampleConnCfg).2.2.2.2⟩

/-- **C5, witness.** Under the source defaults the loop errors out after
its five reconnect attempts. -/
theorem c5_reconnect_exhaustion_witness :
    connectionLoop defaultReconnectConfig (initRc defaultReconnectConfig)
        (List.replicate
          (defaultReconnectConfig.max_reconnect_attempts + 1) false ++ []) =
      ((List.range' 0 defaultReconnectConfig.max_reconnect_attempts).map
        (fun j => min (specDelay defaultReconnectConfig j) 30),
        some "error") :=
  c5_reconnect_exhaustion defaultReconnectConfig []

/-- **C6, witness.** On a concrete two-connection table the implementation
agrees with the specification search. -/
theorem c6_find_connection_witness :
    WebSocketClient.find_connection_for_target exampleClientConns
        exampleClientStates "k2" "qq" =
      findTargetSpec exampleClientConns exampleClientStates "k2" "qq" :=
  (c6_find_connection exampleClientConns exampleClientStates "k2" "qq").1

end MaimMessage
